import Mathlib

/-!
Verification of the market-stall simulation engine.

The development shallowly embeds the simulation core (state/config data
model, the six mutation-interface operations, the per-step engine phases,
the capacity-constrained fulfillment scan, and the demand sampler's
expected-ticket computation) into Lean and proves/refutes the testable
properties of the specification.

Modelling conventions:
- Python floats are modelled as exact rationals; the source's 1e-9
  comparison tolerances are kept literally as the rational 1/10^9.
- Python dicts are modelled as association lists preserving insertion
  order; lookup, default-lookup and insert-or-update mirror dict
  semantics (update in place keeps position, fresh keys are appended).
- Fallible Python code (uncaught KeyError) is modelled with Option:
  a result of none marks an escaping exception.
-/

namespace Santoto

/-- The floating-point comparison slack used throughout the engine
(the literal 1e-9 of the source). -/
def tol : ℚ := 1 / 1000000000

/-- Minutes per simulation turn (TURN_MINUTES in the source). -/
def turnMinutes : ℚ := 15

/-- Maximum number of turns a customer waits in the queue
(MAX_QUEUE_WAIT_TURNS in the source). -/
def maxQueueWaitTurns : ℤ := 2

section AssocMap

variable {κ α : Type} [DecidableEq κ]

/-- Dictionary lookup: first binding of key k, scanning left to right. -/
def afind? : List (κ × α) → κ → Option α
  | [], _ => none
  | p :: rest, k => if p.1 = k then some p.2 else afind? rest k

/-- Python `k in d` membership test. -/
def ahas (m : List (κ × α)) (k : κ) : Bool :=
  (afind? m k).isSome

/-- Python `d.get(k, dflt)`. -/
def aget (m : List (κ × α)) (k : κ) (dflt : α) : α :=
  (afind? m k).getD dflt

/-- Python `d[k] = v`: update in place if the key exists (preserving its
position), otherwise append the new binding. -/
def aset (m : List (κ × α)) (k : κ) (v : α) : List (κ × α) :=
  if ahas m k then m.map (fun p => if p.1 = k then (k, v) else p)
  else m ++ [(k, v)]

/-- Python `d.update(other)`: apply every binding of other in order. -/
def aupdate (m other : List (κ × α)) : List (κ × α) :=
  other.foldl (fun acc p => aset acc p.1 p.2) m

end AssocMap

/-! Name constants for the products, ingredients and tasks of the game. -/

def kPintxo : String := "pintxo"
def kBocadillo : String := "bocadillo"
def kSidra : String := "sidra"
def kTxistorra : String := "txistorra"
def kPan : String := "pan"
def kAtender : String := "atender_clientes"
def kFreir : String := "freir_txistorra"
def kPreparar : String := "preparar_pintxos"
def kAbrir : String := "abrir_sidra"
def kComprar : String := "comprar"

/-- The valid task names, in the order the source lists them. -/
def validTasks : List String := [kAtender, kFreir, kPreparar, kAbrir, kComprar]

/-! ## Data model (types.py) -/

/-- A pending ingredient delivery (Delivery in the source). The
quantities are the integer amounts requested in the purchase order. -/
structure Delivery where
  arrival_turn : ℕ
  quantities : List (String × ℤ)
deriving Repr, DecidableEq

/-- A customer order waiting in the queue (Order in the source). -/
structure Order where
  items : List (String × ℤ)
  arrival_turn : ℕ
deriving Repr, DecidableEq

/-- A multi-product order profile (OrderProfile in the source). -/
structure OrderProfile where
  name : String
  items : List (String × ℤ)
deriving Repr, DecidableEq

/-- A time-segment of profile probabilities (OrderMixSegment). Bounds
are inclusive turn indices. -/
structure OrderMixSegment where
  from_turn : ℤ
  to_turn : ℤ
  profile_probs : List (String × ℚ)
deriving Repr, DecidableEq

/-- Demand parameters (DemandParams in the source). -/
structure DemandParams where
  price_ref : List (String × ℚ)
  noise_std : ℚ
  customers_curve : List ℚ
  elasticity_customers : ℚ
  order_profiles : List (String × OrderProfile)
  order_mix_segments : List OrderMixSegment
deriving Repr, DecidableEq

/-- A single worker-task assignment (EmployeeAssignment). -/
structure EmployeeAssignment where
  employee_id : ℤ
  task : String
deriving Repr, DecidableEq

/-- Derived per-turn throughput capacities (WorkerCapacities). -/
structure WorkerCapacities where
  customers_per_turn : ℚ := 0
  txistorra_strips_per_turn : ℚ := 0
  sidra_bottles_per_turn : ℚ := 0
deriving Repr, DecidableEq

/-- Initial world-state values of a configuration (InitialState). -/
structure InitialState where
  cash : ℚ
  stock : List (String × ℚ)
  prices : List (String × ℚ)
  worker_assignments : Option (List EmployeeAssignment) := none
deriving Repr, DecidableEq

/-- Immutable run configuration (Config in the source). -/
structure Config where
  num_turns : ℕ
  lead_time : ℕ
  seed : ℕ
  initial : InitialState
  costs : List (String × ℚ)
  ingredient_weights : List (String × ℚ)
  worker_max_carry_weight : ℚ
  recipes : List (String × List (String × ℚ))
  demand : DemandParams
  num_workers : ℤ := 8
deriving Repr, DecidableEq

/-- The summary of the previous turn exposed to the agent
(TurnSummary in the source). -/
structure TurnSummary where
  queue_start : ℕ := 0
  new_customers : ℕ := 0
  served_customers : ℕ := 0
  queue_end : ℕ := 0
  dropped_from_queue : ℕ := 0
  orders_served : List (List (String × ℤ)) := []
  unserved_orders : List (List (String × ℤ)) := []
  blocked_by_customers_capacity : Bool := false
  blocked_by_grill_capacity : Bool := false
  blocked_by_sidra_capacity : Bool := false
  blocked_by_stock : Bool := false
  messages : List String := []
  worker_assignments : List EmployeeAssignment := []
  worker_capacities : WorkerCapacities := {}
deriving Repr, DecidableEq

/-- The mutable world state (State in the source). -/
structure State where
  turn : ℕ
  cash : ℚ
  stock_on_hand : List (String × ℚ)
  inbound_deliveries : List Delivery
  prices : List (String × ℚ)
  last_turn : Option TurnSummary := none
  order_queue : List Order := []
  worker_assignments : List EmployeeAssignment := []
  worker_capacities : WorkerCapacities := {}
  workers_on_trip : List (ℤ × ℤ) := []
deriving Repr, DecidableEq

/-- The structured result of a mutation-interface operation
(ToolResult in the source; payload fields that merely echo state are
omitted, the success flag, failure reason and acceptance marker are
kept). -/
structure ToolResult where
  ok : Bool
  reason : Option String := none
  accepted : Option Bool := none
deriving Repr, DecidableEq

/-! ## Worker assignment helpers (Simulator._normalize_assignments,
_count_tasks, _compute_worker_capacities, _set_worker_assignments) -/

/-- One step of the stable insertion sort by employee_id: the new
element goes after every element whose id is less than or equal to
its own, which reproduces the stability of the source's key sort. -/
def insertById (a : EmployeeAssignment) : List EmployeeAssignment → List EmployeeAssignment
  | [] => [a]
  | b :: rest =>
    if b.employee_id ≤ a.employee_id then b :: insertById a rest
    else a :: b :: rest

/-- Stable sort of assignments by employee_id
(Simulator._normalize_assignments). -/
def normalizeAssignments (l : List EmployeeAssignment) : List EmployeeAssignment :=
  l.foldl (fun acc a => insertById a acc) []

/-- Number of workers assigned to a given task
(Simulator._count_tasks, one entry of the count dictionary). -/
def countTasks (l : List EmployeeAssignment) (task : String) : ℕ :=
  l.countP (fun a => decide (a.task = task))

/-- Per-turn capacities derived from assignment counts
(Simulator._compute_worker_capacities). -/
def computeWorkerCapacities (l : List EmployeeAssignment) : WorkerCapacities :=
  { customers_per_turn := 1 * (countTasks l kAtender : ℚ) * turnMinutes
    txistorra_strips_per_turn := 4 / 60 * turnMinutes * (countTasks l kFreir : ℚ)
    sidra_bottles_per_turn := 2 * (countTasks l kAbrir : ℚ) * turnMinutes }

/-- Install a new assignment list: normalize it and recompute the
derived capacities (Simulator._set_worker_assignments). -/
def setWorkerAssignments (s : State) (l : List EmployeeAssignment) : State :=
  let normalized := normalizeAssignments l
  { s with
    worker_assignments := normalized
    worker_capacities := computeWorkerCapacities normalized }

/-! ## Mutation interface (ToolExecutor) -/

/-- get_status: read-only, always succeeds. (The payload echoed back to
the agent is a view of the state; only the success flag matters here.) -/
def get_status (s : State) : ToolResult × State :=
  ({ ok := true }, s)

/-- get_prices: read-only, always succeeds. -/
def get_prices (s : State) : ToolResult × State :=
  ({ ok := true }, s)

/-- set_prices: reject on the first negative supplied price, otherwise
update the supplied products in place. -/
def set_prices (s : State) (prices : List (String × ℚ)) : ToolResult × State :=
  match prices.find? (fun p => decide (p.2 < 0)) with
  | some p =>
      ({ ok := false, reason := some ("Precio negativo para " ++ p.1) }, s)
  | none =>
      ({ ok := true }, { s with prices := aupdate s.prices prices })

/-- The quantity-validation and cost-accumulation loop of place_order.
Scanning in dict order: a negative quantity yields a validation failure
(Sum.inl reason); an ingredient missing from the cost map raises a
KeyError in the source, modelled as none. -/
def orderCost (costs : List (String × ℚ)) : List (String × ℤ) → Option (String ⊕ ℚ)
  | [] => some (Sum.inr 0)
  | p :: rest =>
    if p.2 < 0 then some (Sum.inl ("Cantidad negativa para " ++ p.1))
    else
      match afind? costs p.1 with
      | none => none
      | some c =>
        match orderCost costs rest with
        | none => none
        | some (Sum.inl r) => some (Sum.inl r)
        | some (Sum.inr acc) => some (Sum.inr (c * (p.2 : ℚ) + acc))

/-- The worker-validation loop of place_order: id range, duplicates,
already-on-trip, in that order, scanning the list left to right. -/
def validateWorkers (numWorkers : ℤ) (onTrip : List (ℤ × ℤ)) :
    List ℤ → List ℤ → Option String
  | _, [] => none
  | seen, w :: rest =>
    if w < 1 ∨ numWorkers < w then
      some ("ID de trabajador inválido: " ++ toString w)
    else if w ∈ seen then
      some ("ID de trabajador duplicado: " ++ toString w)
    else if ahas onTrip w then
      some ("El trabajador " ++ toString w ++ " ya está de viaje")
    else validateWorkers numWorkers onTrip (seen ++ [w]) rest

/-- Total weight of a purchase: ingredient weight (defaulting to 0)
times quantity, summed in dict order. -/
def totalWeight (weights : List (String × ℚ)) (quantities : List (String × ℤ)) : ℚ :=
  quantities.foldl (fun acc p => acc + aget weights p.1 0 * (p.2 : ℚ)) 0

/-- The acceptance effects of place_order: cash is debited, a delivery
is scheduled for turn + lead_time, the sent workers lose their task
assignment and are marked on trip for lead_time turns. -/
def acceptOrder (cfg : Config) (s : State) (quantities : List (String × ℤ))
    (workers : List ℤ) (cost : ℚ) : State :=
  { setWorkerAssignments
      { s with
        cash := s.cash - cost
        inbound_deliveries := s.inbound_deliveries ++
          [{ arrival_turn := s.turn + cfg.lead_time, quantities := quantities }] }
      (s.worker_assignments.filter (fun a => decide (a.employee_id ∉ workers))) with
    workers_on_trip := workers.foldl
      (fun m w => aset m w (cfg.lead_time : ℤ)) s.workers_on_trip }

/-- place_order: the full validation chain followed by the acceptance
effects. A result of none models the KeyError raised by the cost lookup
of an unknown ingredient. -/
def place_order (cfg : Config) (s : State) (quantities : List (String × ℤ))
    (workers : List ℤ) : Option (ToolResult × State) :=
  match orderCost cfg.costs quantities with
  | none => none
  | some (Sum.inl reason) => some ({ ok := false, reason := some reason }, s)
  | some (Sum.inr cost) =>
    if workers.isEmpty then
      some ({ ok := false
              reason := some ("Debe enviar al menos un trabajador a comprar") }, s)
    else
      match validateWorkers cfg.num_workers s.workers_on_trip [] workers with
      | some reason => some ({ ok := false, reason := some reason }, s)
      | none =>
        if (workers.length : ℚ) * cfg.worker_max_carry_weight + tol <
            totalWeight cfg.ingredient_weights quantities then
          some ({ ok := false
                  reason := some ("La compra excede la capacidad de carga de los trabajadores seleccionados")
                  accepted := some false }, s)
        else if s.cash < cost then
          some ({ ok := false
                  reason := some ("Compra rechazada: coste > caja")
                  accepted := some false }, s)
        else
          some ({ ok := true, accepted := some true },
                acceptOrder cfg s quantities workers cost)

/-- The per-entry validation loop of assign_workers: id range,
on-trip, duplicate, unknown task, in that order. -/
def validateAssignments (numWorkers : ℤ) (onTrip : List (ℤ × ℤ)) :
    List ℤ → List EmployeeAssignment → Option String
  | _, [] => none
  | seen, a :: rest =>
    if a.employee_id < 1 ∨ numWorkers < a.employee_id then
      some ("employee_id inválido: " ++ toString a.employee_id)
    else if ahas onTrip a.employee_id then
      some ("El trabajador " ++ toString a.employee_id ++ " está de viaje y no puede ser asignado")
    else if a.employee_id ∈ seen then
      some ("employee_id duplicado: " ++ toString a.employee_id)
    else if a.task ∉ validTasks then
      some ("Tarea inválida: " ++ a.task)
    else validateAssignments numWorkers onTrip (seen ++ [a.employee_id]) rest

/-- The per-task cap check of assign_workers: at most 3 workers on each
of the four capacity-bearing tasks, checked in the source's order. -/
def capCheck (l : List EmployeeAssignment) : Option String :=
  if 3 < countTasks l kAtender then some ("Máximo 3 para " ++ kAtender)
  else if 3 < countTasks l kFreir then some ("Máximo 3 para " ++ kFreir)
  else if 3 < countTasks l kPreparar then some ("Máximo 3 para " ++ kPreparar)
  else if 3 < countTasks l kAbrir then some ("Máximo 3 para " ++ kAbrir)
  else none

/-- assign_workers: validate every entry and the per-task caps, then
replace the whole assignment set and recompute capacities. -/
def assign_workers (cfg : Config) (s : State)
    (assignments : List EmployeeAssignment) : ToolResult × State :=
  match validateAssignments cfg.num_workers s.workers_on_trip [] assignments with
  | some reason => ({ ok := false, reason := some reason }, s)
  | none =>
    match capCheck assignments with
    | some reason => ({ ok := false, reason := some reason }, s)
    | none => ({ ok := true }, setWorkerAssignments s assignments)

/-- end_turn: records the intent to close the decision phase; the world
state itself is untouched (the source sets an engine-level flag that
the step loop resets at the start of every turn). -/
def end_turn (s : State) : ToolResult × State :=
  ({ ok := true }, s)

/-! ## Engine phases (Simulator) -/

/-- Initial world state built from the configuration
(Simulator._init_state). -/
def initState (cfg : Config) : State :=
  let initialAssignments := cfg.initial.worker_assignments.getD []
  { turn := 0
    cash := cfg.initial.cash
    stock_on_hand := cfg.initial.stock
    inbound_deliveries := []
    prices := cfg.initial.prices
    last_turn := none
    order_queue := []
    worker_assignments := initialAssignments
    worker_capacities := computeWorkerCapacities initialAssignments
    workers_on_trip := [] }

/-- Decrement the remaining-turn counters of the workers on a trip,
releasing those whose counter does not stay positive
(Simulator._update_worker_trips). -/
def updateWorkerTrips (s : State) : State :=
  { s with
    workers_on_trip :=
      (s.workers_on_trip.map (fun p => (p.1, p.2 - 1))).filter
        (fun p => decide (0 < p.2)) }

/-- Receive the deliveries whose arrival turn equals the current turn,
adding their quantities to the stock and keeping the rest pending
(Simulator._receive_deliveries). -/
def receiveDeliveries (s : State) : State :=
  let arriving := s.inbound_deliveries.filter
    (fun d => decide (d.arrival_turn = s.turn))
  let remaining := s.inbound_deliveries.filter
    (fun d => decide (d.arrival_turn ≠ s.turn))
  { s with
    stock_on_hand := arriving.foldl
      (fun st d => d.quantities.foldl
        (fun st2 q => aset st2 q.1 (aget st2 q.1 0 + (q.2 : ℚ))) st)
      s.stock_on_hand
    inbound_deliveries := remaining }

/-! ## Fulfillment scan (Simulator._simulate_demand_and_sales) -/

/-- Whether a queued order has waited at least MAX_QUEUE_WAIT_TURNS
turns and abandons the queue. -/
def agedOut (turn : ℕ) (o : Order) : Bool :=
  decide (maxQueueWaitTurns ≤ (turn : ℤ) - (o.arrival_turn : ℤ))

/-- Grill strips required by an order: per-unit txistorra of each
product's recipe times the ordered quantity. -/
def orderTxistorraNeed (recipes : List (String × List (String × ℚ)))
    (items : List (String × ℤ)) : ℚ :=
  items.foldl (fun acc p => acc + aget (aget recipes p.1 []) kTxistorra 0 * (p.2 : ℚ)) 0

/-- Cider bottles required by an order. -/
def orderSidraNeed (recipes : List (String × List (String × ℚ)))
    (items : List (String × ℤ)) : ℚ :=
  items.foldl (fun acc p => acc + aget (aget recipes p.1 []) kSidra 0 * (p.2 : ℚ)) 0

/-- Total ingredient requirements of an order, skipping non-positive
per-unit amounts, accumulated as a dictionary in iteration order. -/
def neededIngredients (recipes : List (String × List (String × ℚ)))
    (items : List (String × ℤ)) : List (String × ℚ) :=
  items.foldl
    (fun acc p =>
      (aget recipes p.1 []).foldl
        (fun acc2 q =>
          if q.2 ≤ 0 then acc2
          else aset acc2 q.1 (aget acc2 q.1 0 + q.2 * (p.2 : ℚ)))
        acc)
    []

/-- Whether the stock covers every required ingredient up to the
tolerance (the can_fulfill check of the source). -/
def canFulfill (stock needed : List (String × ℚ)) : Bool :=
  needed.all (fun p => decide (p.2 ≤ aget stock p.1 0 + tol))

/-- The mutable accumulator of the fulfillment scan. -/
structure ScanState where
  remaining_customers : ℚ
  remaining_txistorra : ℚ
  remaining_sidra : ℚ
  stock : List (String × ℚ)
  sold_products : List (String × ℤ)
  unserved_orders : List (List (String × ℤ))
  next_queue : List Order
  orders_served : List (List (String × ℤ))
  served_customers : ℕ
  blocked_by_customers_capacity : ℕ
  blocked_by_grill_capacity : ℕ
  blocked_by_sidra_capacity : ℕ
  blocked_by_stock : Bool
deriving Repr, DecidableEq

/-- The sequential scan of the source: hard stop on exhausted customer
slots, soft (order-local) deferral on grill, cider or stock shortage,
otherwise commit the order against stock and budgets. -/
def scanOrders (recipes : List (String × List (String × ℚ))) :
    List Order → ScanState → ScanState
  | [], st => st
  | o :: rest, st =>
    if st.remaining_customers ≤ 0 then
      { st with
        blocked_by_customers_capacity :=
          st.blocked_by_customers_capacity + (o :: rest).length
        unserved_orders := st.unserved_orders ++ (o :: rest).map (fun x => x.items)
        next_queue := st.next_queue ++ o :: rest }
    else
      if st.remaining_txistorra + tol < orderTxistorraNeed recipes o.items then
        scanOrders recipes rest
          { st with
            blocked_by_grill_capacity := st.blocked_by_grill_capacity + 1
            next_queue := st.next_queue ++ [o]
            unserved_orders := st.unserved_orders ++ [o.items] }
      else if st.remaining_sidra + tol < orderSidraNeed recipes o.items then
        scanOrders recipes rest
          { st with
            blocked_by_sidra_capacity := st.blocked_by_sidra_capacity + 1
            next_queue := st.next_queue ++ [o]
            unserved_orders := st.unserved_orders ++ [o.items] }
      else
        if ¬ canFulfill st.stock (neededIngredients recipes o.items) then
          scanOrders recipes rest
            { st with
              blocked_by_stock := true
              next_queue := st.next_queue ++ [o] }
        else
          scanOrders recipes rest
            { st with
              stock := (neededIngredients recipes o.items).foldl
                (fun m p => aset m p.1 (aget m p.1 0 - p.2)) st.stock
              remaining_txistorra := st.remaining_txistorra - orderTxistorraNeed recipes o.items
              remaining_sidra := st.remaining_sidra - orderSidraNeed recipes o.items
              remaining_customers := st.remaining_customers - 1
              served_customers := st.served_customers + 1
              orders_served := st.orders_served ++ [o.items]
              sold_products := o.items.foldl
                (fun m p => aset m p.1 (aget m p.1 0 + p.2)) st.sold_products }

/-- The queue/capacity statistics returned for a turn. -/
structure QueueStats where
  new_customers : ℕ
  served_customers : ℕ
  queue_start : ℕ
  queue_end : ℕ
  blocked_by_customers_capacity : ℕ
  blocked_by_grill_capacity : ℕ
  blocked_by_sidra_capacity : ℕ
  blocked_by_stock : Bool
  dropped_from_queue : ℕ
deriving Repr, DecidableEq

/-- The non-state outputs of a fulfillment step. -/
structure SalesResult where
  sold_products : List (String × ℤ)
  orders_served : List (List (String × ℤ))
  unserved_orders : List (List (String × ℤ))
  stats : QueueStats
deriving Repr, DecidableEq

/-- The full per-turn fulfillment pass
(Simulator._simulate_demand_and_sales, with the freshly sampled batch
of orders passed in as an argument): age out waiting customers, append
the new orders, scan with the three capacity budgets, and install the
deferred orders as the next turn's queue. -/
def simulateDemandAndSales (cfg : Config) (s : State)
    (new_orders : List Order) (new_customers : ℕ) : State × SalesResult :=
  let filtered := s.order_queue.filter (fun o => ¬ agedOut s.turn o)
  let dropped := (s.order_queue.filter (agedOut s.turn)).length
  let all_orders := filtered ++ new_orders
  let st0 : ScanState :=
    { remaining_customers := s.worker_capacities.customers_per_turn
      remaining_txistorra := s.worker_capacities.txistorra_strips_per_turn
      remaining_sidra := s.worker_capacities.sidra_bottles_per_turn
      stock := s.stock_on_hand
      sold_products := [(kPintxo, 0), (kBocadillo, 0), (kSidra, 0)]
      unserved_orders := []
      next_queue := []
      orders_served := []
      served_customers := 0
      blocked_by_customers_capacity := 0
      blocked_by_grill_capacity := 0
      blocked_by_sidra_capacity := 0
      blocked_by_stock := false }
  let fin := scanOrders cfg.recipes all_orders st0
  ({ s with stock_on_hand := fin.stock, order_queue := fin.next_queue },
   { sold_products := fin.sold_products
     orders_served := fin.orders_served
     unserved_orders := fin.unserved_orders
     stats :=
       { new_customers := new_customers
         served_customers := fin.served_customers
         queue_start := filtered.length
         queue_end := fin.next_queue.length
         blocked_by_customers_capacity := fin.blocked_by_customers_capacity
         blocked_by_grill_capacity := fin.blocked_by_grill_capacity
         blocked_by_sidra_capacity := fin.blocked_by_sidra_capacity
         blocked_by_stock := fin.blocked_by_stock
         dropped_from_queue := dropped } })

/-- Revenue of the sold units (Simulator._compute_revenue); the price
lookup is strict dictionary indexing, so a missing product price is an
escaping KeyError, modelled as none. -/
def computeRevenue (prices : List (String × ℚ)) : List (String × ℤ) → Option ℚ
  | [] => some 0
  | p :: rest =>
    match afind? prices p.1, computeRevenue prices rest with
    | some pr, some acc => some (pr * (p.2 : ℚ) + acc)
    | _, _ => none

/-- The queue-abandonment notice added to the turn messages. -/
def droppedMessage (d : ℕ) : String :=
  toString d ++ " persona" ++ (if d ≠ 1 then "s" else "") ++
    " se han ido de la cola porque llevaban más de media hora esperando."

/-- The TurnSummary the engine stores after settlement (run_episode). -/
def mkTurnSummary (s : State) (res : SalesResult) : TurnSummary :=
  { queue_start := res.stats.queue_start
    new_customers := res.stats.new_customers
    served_customers := res.stats.served_customers
    queue_end := res.stats.queue_end
    dropped_from_queue := res.stats.dropped_from_queue
    orders_served := res.orders_served
    unserved_orders := res.unserved_orders
    blocked_by_customers_capacity := decide (0 < res.stats.blocked_by_customers_capacity)
    blocked_by_grill_capacity := decide (0 < res.stats.blocked_by_grill_capacity)
    blocked_by_sidra_capacity := decide (0 < res.stats.blocked_by_sidra_capacity)
    blocked_by_stock := res.stats.blocked_by_stock
    messages :=
      if 0 < res.stats.dropped_from_queue
      then [droppedMessage res.stats.dropped_from_queue] else []
    worker_assignments := s.worker_assignments
    worker_capacities := s.worker_capacities }

/-- Fulfillment followed by settlement: run the scan, credit the
revenue and store the turn summary. A result of none models the
KeyError of a missing product price during revenue computation. -/
def settleStep (cfg : Config) (s : State) (new_orders : List Order)
    (new_customers : ℕ) : Option (State × SalesResult × ℚ) :=
  match computeRevenue (simulateDemandAndSales cfg s new_orders new_customers).1.prices
      (simulateDemandAndSales cfg s new_orders new_customers).2.sold_products with
  | none => none
  | some rev =>
      some ({ (simulateDemandAndSales cfg s new_orders new_customers).1 with
                cash := (simulateDemandAndSales cfg s new_orders new_customers).1.cash + rev
                last_turn := some (mkTurnSummary
                  (simulateDemandAndSales cfg s new_orders new_customers).1
                  (simulateDemandAndSales cfg s new_orders new_customers).2) },
            (simulateDemandAndSales cfg s new_orders new_customers).2, rev)

/-! ## Decision phase and the episode loop (run_episode) -/

/-- One invocation of the mutation interface, as recorded in the
decision-maker's returned action plan. -/
inductive ToolCall where
  | get_status
  | get_prices
  | set_prices (prices : List (String × ℚ))
  | place_order (quantities : List (String × ℤ)) (workers : List ℤ)
  | assign_workers (assignments : List EmployeeAssignment)
  | end_turn
deriving Repr, DecidableEq

/-- Dispatch one tool call against the world state. -/
def applyCall (cfg : Config) (s : State) : ToolCall → Option (ToolResult × State)
  | ToolCall.get_status => some (get_status s)
  | ToolCall.get_prices => some (get_prices s)
  | ToolCall.set_prices m => some (set_prices s m)
  | ToolCall.place_order q w => place_order cfg s q w
  | ToolCall.assign_workers l => some (assign_workers cfg s l)
  | ToolCall.end_turn => some (end_turn s)

/-- Apply a decision plan call by call, collecting the per-call trace
entries; each successful call is immediately visible to the next one. -/
def applyCalls (cfg : Config) : State → List ToolCall →
    Option (List (ToolCall × ToolResult) × State)
  | s, [] => some ([], s)
  | s, c :: rest =>
    match applyCall cfg s c with
    | none => none
    | some (r, s1) =>
      match applyCalls cfg s1 rest with
      | none => none
      | some (trc, s2) => some ((c, r) :: trc, s2)

/-- The engine's minimal plan validation: the action list is non-empty
and its last entry is end_turn. -/
def endsWithEndTurn (calls : List ToolCall) : Bool :=
  match calls.getLast? with
  | some ToolCall.end_turn => true
  | _ => false

/-- Two-digit zero padding for the clock display. -/
def pad2 (n : ℕ) : String :=
  if n < 10 then "0" ++ toString n else toString n

/-- Clock label of a turn (format_time in the source): the day starts
at 10:00 and each turn lasts 15 minutes. -/
def formatTime (turnIdx : ℕ) : String :=
  let minutes := 10 * 60 + 15 * turnIdx
  pad2 (minutes / 60) ++ ":" ++ pad2 (minutes % 60)

/-- The read-only observation handed to the decision-maker
(Simulator._build_observation). -/
structure Observation where
  turn : ℕ
  time : String
  last_turn_summary : Option TurnSummary
  costs : List (String × ℚ)
  recipes : List (String × List (String × ℚ))
  lead_time : ℕ
  capacity_customers_per_turn : ℚ
  capacity_txistorra_strips_per_turn : ℚ
  capacity_sidra_bottles_per_turn : ℚ
  worker_assignments : List EmployeeAssignment
  workers_on_trip : List (ℤ × ℤ)
deriving Repr, DecidableEq

/-- Build the observation from the current state. -/
def buildObservation (cfg : Config) (s : State) : Observation :=
  { turn := s.turn
    time := formatTime s.turn
    last_turn_summary := s.last_turn
    costs := cfg.costs
    recipes := cfg.recipes
    lead_time := cfg.lead_time
    capacity_customers_per_turn := s.worker_capacities.customers_per_turn
    capacity_txistorra_strips_per_turn := s.worker_capacities.txistorra_strips_per_turn
    capacity_sidra_bottles_per_turn := s.worker_capacities.sidra_bottles_per_turn
    worker_assignments := s.worker_assignments
    workers_on_trip := s.workers_on_trip }

/-- A pre- or post-step state snapshot of the trace record. -/
structure Snapshot where
  cash : ℚ
  stock : List (String × ℚ)
  inbound : List Delivery
  prices : List (String × ℚ)
  worker_assignments : List EmployeeAssignment
  worker_capacities : WorkerCapacities
  workers_on_trip : List (ℤ × ℤ)
deriving Repr, DecidableEq

/-- Snapshot the trace-visible parts of the state. -/
def mkSnapshot (s : State) : Snapshot :=
  { cash := s.cash
    stock := s.stock_on_hand
    inbound := s.inbound_deliveries
    prices := s.prices
    worker_assignments := s.worker_assignments
    worker_capacities := s.worker_capacities
    workers_on_trip := s.workers_on_trip }

/-- One per-turn trace record. -/
structure TraceRec where
  turn : ℕ
  time : String
  state_before : Snapshot
  queue_start : ℕ
  agent_actions : List (ToolCall × ToolResult)
  orders_served : List (List (String × ℤ))
  revenue : ℚ
  sold_products : List (String × ℤ)
  state_after : Snapshot
  queue_end : ℕ
deriving Repr, DecidableEq

/-- One turn of run_episode given the decision-maker's returned plan:
worker-trip decay, delivery receipt, the decision phase, the plan
validation (the episode fails unless the plan ends with end_turn),
demand sampling, fulfillment and settlement, and the trace record.
The demand sampler is abstracted as a function threading an explicit
generator state. -/
def runStepWith {σ : Type} (cfg : Config)
    (demandFn : σ → List (String × ℚ) → ℕ → σ × List Order × ℕ)
    (r : σ) (s : State) (decisions : List ToolCall) :
    Except String (σ × State × TraceRec) :=
  match applyCalls cfg (receiveDeliveries (updateWorkerTrips s)) decisions with
  | none => Except.error ("uncaught exception in tool call")
  | some (actions, s1) =>
    if ¬ endsWithEndTurn decisions then
      Except.error ("El plan de acciones debe finalizar con end_turn")
    else
      match settleStep cfg s1 (demandFn r s1.prices s1.turn).2.1
          (demandFn r s1.prices s1.turn).2.2 with
      | none => Except.error ("uncaught exception in settlement")
      | some (s2, res, rev) =>
        Except.ok ((demandFn r s1.prices s1.turn).1, s2,
          { turn := (receiveDeliveries (updateWorkerTrips s)).turn
            time := formatTime (receiveDeliveries (updateWorkerTrips s)).turn
            state_before := mkSnapshot (receiveDeliveries (updateWorkerTrips s))
            queue_start := res.stats.queue_start
            agent_actions := actions
            orders_served := res.orders_served
            revenue := rev
            sold_products := res.sold_products
            state_after := mkSnapshot s2
            queue_end := res.stats.queue_end })

/-- One turn of run_episode with the decision-maker invoked on the
freshly built observation. -/
def runStep {σ : Type} (cfg : Config)
    (demandFn : σ → List (String × ℚ) → ℕ → σ × List Order × ℕ)
    (agent : Observation → List ToolCall)
    (r : σ) (s : State) : Except String (σ × State × TraceRec) :=
  let s0 := receiveDeliveries (updateWorkerTrips s)
  runStepWith cfg demandFn r s (agent (buildObservation cfg s0))

/-- The turn loop of run_episode. -/
def runTurns {σ : Type} (cfg : Config)
    (demandFn : σ → List (String × ℚ) → ℕ → σ × List Order × ℕ)
    (agent : Observation → List ToolCall) :
    ℕ → ℕ → σ → State → List TraceRec → Except String (State × List TraceRec)
  | 0, _, _, s, acc => Except.ok (s, acc)
  | n + 1, t, r, s, acc =>
    match runStep cfg demandFn agent r { s with turn := t } with
    | Except.error e => Except.error e
    | Except.ok (r1, s1, trc) => runTurns cfg demandFn agent n (t + 1) r1 s1 (acc ++ [trc])

/-- A full episode (run_episode): reset to the initial state and play
the configured number of turns, emitting one trace record per turn.
The generator state r0 stands for the seeded pseudorandom generator
the episode owns; the sampler function threads it explicitly. -/
def runEpisode {σ : Type} (cfg : Config)
    (demandFn : σ → List (String × ℚ) → ℕ → σ × List Order × ℕ)
    (agent : Observation → List ToolCall) (r0 : σ) :
    Except String (State × List TraceRec) :=
  runTurns cfg demandFn agent cfg.num_turns 0 r0 (initState cfg) []

/-! ## Demand sampler (demand.py): the expected-ticket computation -/

/-- Locate the profile-probability table of the segment containing the
turn; fall back to the last segment, then to a uniform split over the
configured profiles, then to none at all
(_find_order_mix_segment in the source). -/
def findOrderMixSegment (params : DemandParams) (turnIdx : ℕ) : List (String × ℚ) :=
  match params.order_mix_segments.find?
      (fun seg => decide (seg.from_turn ≤ (turnIdx : ℤ) ∧ (turnIdx : ℤ) ≤ seg.to_turn)) with
  | some seg => seg.profile_probs
  | none =>
    match params.order_mix_segments.getLast? with
    | some seg => seg.profile_probs
    | none =>
      if params.order_profiles.isEmpty then []
      else params.order_profiles.map
        (fun p => (p.1, 1 / (params.order_profiles.length : ℚ)))

/-- The ticket value of one profile: unit price times quantity summed
over its items; the price lookup is strict dictionary indexing, so a
missing price is an escaping KeyError, modelled as none. -/
def profileTicket (prices : List (String × ℚ)) : List (String × ℤ) → Option ℚ
  | [] => some 0
  | p :: rest =>
    match afind? prices p.1, profileTicket prices rest with
    | some pr, some acc => some ((p.2 : ℚ) * pr + acc)
    | _, _ => none

/-- The probability-weighted sum of profile tickets, with strict
lookups of the named profiles. -/
def expectedTicketList (prices : List (String × ℚ))
    (profiles : List (String × OrderProfile)) : List (String × ℚ) → Option ℚ
  | [] => some 0
  | p :: rest =>
    match afind? profiles p.1 with
    | none => none
    | some prof =>
      match profileTicket prices prof.items, expectedTicketList prices profiles rest with
      | some t, some acc => some (p.2 * t + acc)
      | _, _ => none

/-- The expected ticket value of one turn (_compute_expected_ticket in
the source): the profile probabilities of the active segment are used
exactly as configured, and with no probabilities at all the simple mean
of the three product prices is returned. -/
def computeExpectedTicket (prices : List (String × ℚ)) (params : DemandParams)
    (turnIdx : ℕ) : Option ℚ :=
  let probs := findOrderMixSegment params turnIdx
  if probs.isEmpty then
    match afind? prices kPintxo, afind? prices kBocadillo, afind? prices kSidra with
    | some a, some b, some c => some (a / 3 + b / 3 + c / 3)
    | _, _, _ => none
  else expectedTicketList prices params.order_profiles probs

/-- Modelled from the spec: the expected-ticket computation as the
specification words it, with the segment's profile probabilities first
normalized to sum to 1 and a uniform profile mix assumed when their
total weight is zero. Used only to compare the specified formula with
the implemented one. -/
def specExpectedTicket (prices : List (String × ℚ)) (params : DemandParams)
    (turnIdx : ℕ) : Option ℚ :=
  let probs := findOrderMixSegment params turnIdx
  if probs.isEmpty then
    match afind? prices kPintxo, afind? prices kBocadillo, afind? prices kSidra with
    | some a, some b, some c => some (a / 3 + b / 3 + c / 3)
    | _, _, _ => none
  else
    let total := (probs.map (fun p => p.2)).sum
    let normalized :=
      if total = 0 then probs.map (fun p => (p.1, 1 / (probs.length : ℚ)))
      else probs.map (fun p => (p.1, p.2 / total))
    expectedTicketList prices params.order_profiles normalized

/-! ## Reachable world states

A state is reachable when it arises from the initial state of a
configuration by any interleaving of mutation-interface calls and
engine phases. The demand phase is abstracted over the sampled batch:
the sampler always tags new orders with the current turn, and any valid
configuration lists non-negative item quantities in its order profiles,
so those two facts are the hypotheses of the demand event. -/

inductive Reach (cfg : Config) : State → Prop where
  | init : Reach cfg (initState cfg)
  | set_prices_call (s : State) (m : List (String × ℚ)) :
      Reach cfg s → Reach cfg (set_prices s m).2
  | place_order_call (s : State) (q : List (String × ℤ)) (w : List ℤ)
      (r : ToolResult) (s1 : State) :
      Reach cfg s → place_order cfg s q w = some (r, s1) → Reach cfg s1
  | assign_workers_call (s : State) (l : List EmployeeAssignment) :
      Reach cfg s → Reach cfg (assign_workers cfg s l).2
  | advance_turn (s : State) :
      Reach cfg s → Reach cfg { s with turn := s.turn + 1 }
  | trips (s : State) :
      Reach cfg s → Reach cfg (updateWorkerTrips s)
  | deliveries (s : State) :
      Reach cfg s → Reach cfg (receiveDeliveries s)
  | demand_sales (s : State) (orders : List Order) (ncust : ℕ)
      (s1 : State) (res : SalesResult) (rev : ℚ) :
      Reach cfg s →
      (∀ o ∈ orders, o.arrival_turn = s.turn ∧ ∀ p ∈ o.items, 0 ≤ p.2) →
      settleStep cfg s orders ncust = some (s1, res, rev) →
      Reach cfg s1

/-- A valid episode configuration: non-negative initial cash, stock and
prices. -/
def ValidConfig (cfg : Config) : Prop :=
  0 ≤ cfg.initial.cash ∧
  (∀ p ∈ cfg.initial.stock, 0 ≤ p.2) ∧
  (∀ p ∈ cfg.initial.prices, 0 ≤ p.2)

/-- The state invariant actually maintained by the engine: cash and
prices stay non-negative, delivery and queued-order quantities stay
non-negative, and stock stays above minus the comparison tolerance. -/
def GoodState (s : State) : Prop :=
  0 ≤ s.cash ∧
  (∀ p ∈ s.stock_on_hand, -tol ≤ p.2) ∧
  (∀ p ∈ s.prices, 0 ≤ p.2) ∧
  (∀ d ∈ s.inbound_deliveries, ∀ q ∈ d.quantities, 0 ≤ q.2) ∧
  (∀ o ∈ s.order_queue, ∀ p ∈ o.items, 0 ≤ p.2)

/-- No worker id is simultaneously assigned a task and on a trip. -/
def WorkerDisjoint (s : State) : Prop :=
  ∀ a ∈ s.worker_assignments, afind? s.workers_on_trip a.employee_id = none

/-- The total cost of a purchase: unit cost (with dictionary default 0)
times quantity, summed over the requested items. -/
def totalCost (costs : List (String × ℚ)) (quantities : List (String × ℤ)) : ℚ :=
  ((quantities.map (fun p => aget costs p.1 0 * (p.2 : ℚ)))).sum

/-! ## Concrete fixtures used by witnesses and counterexamples -/

/-- An ingredient name absent from every cost map of the fixtures. -/
def kDesconocido : String := "ingrediente_desconocido"

/-- Fixture demand parameters: a single deterministic one-pintxo
profile active on every turn. -/
def demandFix : DemandParams :=
  { price_ref := [(kPintxo, 5), (kBocadillo, 5), (kSidra, 5)]
    noise_std := 0
    customers_curve := [4]
    elasticity_customers := 0
    order_profiles := [("solo_pintxo", { name := "solo_pintxo", items := [(kPintxo, 1)] })]
    order_mix_segments := [{ from_turn := 0, to_turn := 100, profile_probs := [("solo_pintxo", 1)] }] }

/-- Fixture configuration for the stock-tolerance counterexample: one
customer-service worker, zero txistorra stock and a pintxo recipe
needing exactly the tolerance amount of txistorra per unit. -/
def cfgC2 : Config :=
  { num_turns := 1
    lead_time := 1
    seed := 0
    initial :=
      { cash := 100
        stock := [(kTxistorra, 0)]
        prices := [(kPintxo, 5), (kBocadillo, 4), (kSidra, 3)]
        worker_assignments := some [{ employee_id := 1, task := kAtender }] }
    costs := [(kTxistorra, 1), (kPan, 1), (kSidra, 1)]
    ingredient_weights := [(kTxistorra, 1), (kPan, 1), (kSidra, 1)]
    worker_max_carry_weight := 25
    recipes := [(kPintxo, [(kTxistorra, tol)]), (kBocadillo, []), (kSidra, [])]
    demand := demandFix
    num_workers := 8 }

/-- The single order of the counterexample batch, arriving on turn 0. -/
def orderC2 : Order := { items := [(kPintxo, 1)], arrival_turn := 0 }

/-- A dummy sales result used only as a getD fallback. -/
def emptySalesResult : SalesResult :=
  { sold_products := []
    orders_served := []
    unserved_orders := []
    stats :=
      { new_customers := 0, served_customers := 0, queue_start := 0, queue_end := 0
        blocked_by_customers_capacity := 0, blocked_by_grill_capacity := 0
        blocked_by_sidra_capacity := 0, blocked_by_stock := false
        dropped_from_queue := 0 } }

/-- The settled turn-0 outcome of the counterexample episode. -/
def settledC2 : State × SalesResult × ℚ :=
  (settleStep cfgC2 (initState cfgC2) [orderC2] 1).getD
    (initState cfgC2, emptySalesResult, 0)

/-- The world state after the counterexample's first turn. -/
def stateC2 : State := settledC2.1

/-- Fixture configuration for the carry-weight tolerance counterexample:
one worker carries 1 unit of weight, bread weighs 1 + 10^-10 per unit
and costs nothing. -/
def cfgC4 : Config :=
  { num_turns := 1
    lead_time := 1
    seed := 0
    initial :=
      { cash := 0
        stock := []
        prices := [(kPintxo, 5), (kBocadillo, 4), (kSidra, 3)]
        worker_assignments := none }
    costs := [(kTxistorra, 1), (kPan, 0), (kSidra, 1)]
    ingredient_weights := [(kTxistorra, 1), (kPan, 1 + 1 / 10000000000), (kSidra, 1)]
    worker_max_carry_weight := 1
    recipes := [(kPintxo, []), (kBocadillo, []), (kSidra, [])]
    demand := demandFix
    num_workers := 8 }

/-- The overweight-by-less-than-tolerance purchase of the
counterexample. -/
def qC4 : List (String × ℤ) := [(kPan, 1)]

/-- A purchase overweight by clearly more than the tolerance (two units
of bread against a carry capacity of one unit of weight). -/
def qC4w : List (String × ℤ) := [(kPan, 2)]

/-- The outcome of the accepted zero-cost purchase used as the
acceptance-effects witness. -/
def placedC5 : ToolResult × State :=
  (place_order cfgC4 (initState cfgC4) qC4 [1]).getD
    ({ ok := false }, initState cfgC4)

/-- Fixture recipes for the soft-block tolerance counterexample: a
pintxo needs 1 + 10^-10 grill strips. -/
def recipesC1 : List (String × List (String × ℚ)) :=
  [(kPintxo, [(kTxistorra, 1 + 1 / 10000000000)])]

/-- The scan state of the soft-block counterexample: one customer slot,
exactly 1 grill strip of budget, ample cider and stock. -/
def stC1 : ScanState :=
  { remaining_customers := 1
    remaining_txistorra := 1
    remaining_sidra := 100
    stock := [(kTxistorra, 100)]
    sold_products := [(kPintxo, 0), (kBocadillo, 0), (kSidra, 0)]
    unserved_orders := []
    next_queue := []
    orders_served := []
    served_customers := 0
    blocked_by_customers_capacity := 0
    blocked_by_grill_capacity := 0
    blocked_by_sidra_capacity := 0
    blocked_by_stock := false }

/-- The order of the soft-block counterexample. -/
def orderC1 : Order := { items := [(kPintxo, 1)], arrival_turn := 0 }

/-- The soft-block witness scan state: no grill budget at all. -/
def stC1b : ScanState := { stC1 with remaining_txistorra := 0 }

/-- The hard-stop witness scan state: no customer slots left. -/
def stC1c : ScanState := { stC1 with remaining_customers := 0 }

/-- Fixture prices for the expected-ticket counterexample. -/
def pricesC8 : List (String × ℚ) := [(kPintxo, 5), (kBocadillo, 4), (kSidra, 3)]

/-- Fixture demand parameters for the expected-ticket counterexample:
a single profile whose configured probability weight is zero. -/
def paramsC8 : DemandParams :=
  { price_ref := pricesC8
    noise_std := 0
    customers_curve := [4]
    elasticity_customers := 0
    order_profiles := [("solo_pintxo", { name := "solo_pintxo", items := [(kPintxo, 1)] })]
    order_mix_segments := [{ from_turn := 0, to_turn := 10, profile_probs := [("solo_pintxo", 0)] }] }

/-- A trivial demand function for witnesses: no customers ever. -/
def noDemand : ℕ → List (String × ℚ) → ℕ → ℕ × List Order × ℕ :=
  fun r _ _ => (r, [], 0)

/-- A decision-maker that immediately ends the turn. -/
def agentW1 : Observation → List ToolCall :=
  fun _ => [ToolCall.end_turn]

/-- A second, syntactically distinct copy of the same decision-maker. -/
def agentW2 : Observation → List ToolCall :=
  fun obs => (fun _ => [ToolCall.end_turn]) obs

/-! ## Association-map lemmas -/

section AssocLemmas

variable {κ α : Type} [DecidableEq κ] {m : List (κ × α)} {k k' : κ} {v : α}

theorem afind?_append_of_none (h : afind? m k = none) (l : List (κ × α)) :
    afind? (m ++ l) k = afind? l k := by
  induction m with
  | nil => rfl
  | cons p rest ih =>
    by_cases hpk : p.1 = k
    · simp [afind?, hpk] at h
    · simp only [List.cons_append, afind?, if_neg hpk] at h ⊢
      exact ih h

theorem afind?_eq_none_iff : afind? m k = none ↔ ∀ p ∈ m, p.1 ≠ k := by
  induction m with
  | nil => simp [afind?]
  | cons p rest ih => by_cases hpk : p.1 = k <;> simp [afind?, hpk, ih]

theorem afind?_map_set (m : List (κ × α)) (k : κ) (v : α) :
    afind? (m.map (fun p => if p.1 = k then (k, v) else p)) k =
      (afind? m k).map (fun _ => v) := by
  induction m with
  | nil => rfl
  | cons p rest ih =>
    by_cases hpk : p.1 = k
    · simp [afind?, hpk]
    · simp [afind?, hpk, ih]

theorem afind?_aset_self (m : List (κ × α)) (k : κ) (v : α) :
    afind? (aset m k v) k = some v := by
  unfold aset
  by_cases h : ahas m k = true
  · rw [if_pos h, afind?_map_set]
    unfold ahas at h
    cases hf : afind? m k with
    | none => rw [hf] at h; simp at h
    | some w => simp
  · rw [if_neg h]
    unfold ahas at h
    have hn : afind? m k = none := by
      cases hf : afind? m k with
      | none => rfl
      | some w => rw [hf] at h; simp at h
    rw [afind?_append_of_none hn]
    simp [afind?]

theorem afind?_map_set_ne (h : k' ≠ k) (m : List (κ × α)) (v : α) :
    afind? (m.map (fun p => if p.1 = k then (k, v) else p)) k' = afind? m k' := by
  induction m with
  | nil => rfl
  | cons p rest ih =>
    by_cases hpk : p.1 = k
    · have hkk : ¬ k = k' := fun he => h he.symm
      have hpk' : ¬ p.1 = k' := by rw [hpk]; exact hkk
      simp only [List.map_cons, if_pos hpk, afind?, if_neg hkk, if_neg hpk']
      exact ih
    · simp only [List.map_cons, if_neg hpk, afind?]
      by_cases hpk' : p.1 = k'
      · simp [hpk']
      · simp only [if_neg hpk']
        exact ih

theorem afind?_append_single_ne (h : k' ≠ k) (m : List (κ × α)) (v : α) :
    afind? (m ++ [(k, v)]) k' = afind? m k' := by
  induction m with
  | nil =>
    have hkk : ¬ k = k' := fun he => h he.symm
    simp [afind?, hkk]
  | cons p rest ih =>
    by_cases hpk : p.1 = k'
    · simp [afind?, hpk]
    · simp only [List.cons_append, afind?, if_neg hpk]
      exact ih

theorem afind?_aset_ne (h : k' ≠ k) (m : List (κ × α)) (v : α) :
    afind? (aset m k v) k' = afind? m k' := by
  unfold aset
  split
  · exact afind?_map_set_ne h m v
  · exact afind?_append_single_ne h m v

theorem mem_of_afind? (h : afind? m k = some v) : (k, v) ∈ m := by
  induction m with
  | nil => cases h
  | cons p rest ih =>
    by_cases hpk : p.1 = k
    · simp only [afind?, if_pos hpk] at h
      cases p
      simp_all
    · simp only [afind?, if_neg hpk] at h
      exact List.mem_cons_of_mem _ (ih h)

theorem mem_aset {q : κ × α} (h : q ∈ aset m k v) : q = (k, v) ∨ q ∈ m := by
  unfold aset at h
  split at h
  · rcases List.mem_map.mp h with ⟨p, hp, heq⟩
    by_cases hpk : p.1 = k
    · left; rw [← heq]; simp [hpk]
    · right; rw [← heq]; simp only [if_neg hpk]; exact hp
  · rcases List.mem_append.mp h with h1 | h1
    · right; exact h1
    · left; simpa using h1

theorem aget_bound {P : α → Prop} {d : α} (hm : ∀ p ∈ m, P p.2) (hd : P d) :
    P (aget m k d) := by
  unfold aget
  cases hf : afind? m k with
  | none => simpa using hd
  | some w => simpa using hm (k, w) (mem_of_afind? hf)

theorem aset_bound {P : α → Prop} (hm : ∀ p ∈ m, P p.2) (hv : P v) :
    ∀ p ∈ aset m k v, P p.2 := by
  intro p hp
  rcases mem_aset hp with h | h
  · rw [h]; exact hv
  · exact hm p h

theorem aupdate_bound {P : α → Prop} {other : List (κ × α)}
    (hm : ∀ p ∈ m, P p.2) (ho : ∀ p ∈ other, P p.2) :
    ∀ p ∈ aupdate m other, P p.2 := by
  unfold aupdate
  induction other generalizing m with
  | nil => simpa using hm
  | cons p rest ih =>
    simp only [List.foldl_cons]
    exact ih (aset_bound hm (ho p (by simp)))
      (fun x hx => ho x (by simp [hx]))

theorem keys_aset_nodup (h : (m.map Prod.fst).Nodup) :
    ((aset m k v).map Prod.fst).Nodup := by
  unfold aset
  split
  · have he : ∀ p ∈ m, (Prod.fst ∘ fun q => if q.1 = k then (k, v) else q) p = Prod.fst p := by
      intro p _
      by_cases hpk : p.1 = k
      · simp [Function.comp, hpk]
      · simp [Function.comp, hpk]
    rw [List.map_map]
    rw [List.map_congr_left he]
    exact h
  · rename_i hno
    have hn : afind? m k = none := by
      unfold ahas at hno
      cases hf : afind? m k with
      | none => rfl
      | some w => rw [hf] at hno; simp at hno
    have hk : k ∉ m.map Prod.fst := by
      intro hmem
      rcases List.mem_map.mp hmem with ⟨p, hp, hpk⟩
      exact (afind?_eq_none_iff.mp hn p hp) hpk
    simp [List.nodup_append, h, hk]

theorem afind?_foldl_aset_notmem (ws : List κ) (m : List (κ × α)) (h : k ∉ ws) :
    afind? (ws.foldl (fun acc w => aset acc w v) m) k = afind? m k := by
  induction ws generalizing m with
  | nil => rfl
  | cons w rest ih =>
    simp only [List.foldl_cons]
    have hk : k ∉ rest := fun hh => h (List.mem_cons_of_mem _ hh)
    rw [ih _ hk]
    exact afind?_aset_ne (fun he => h (by simp [he])) m v

theorem afind?_foldl_aset_mem (ws : List κ) (m : List (κ × α)) (h : k ∈ ws) :
    afind? (ws.foldl (fun acc w => aset acc w v) m) k = some v := by
  induction ws generalizing m with
  | nil => cases h
  | cons w rest ih =>
    simp only [List.foldl_cons]
    by_cases hr : k ∈ rest
    · exact ih _ hr
    · have hkw : k = w := by
        rcases List.mem_cons.mp h with h1 | h1
        · exact h1
        · exact absurd h1 hr
      rw [afind?_foldl_aset_notmem rest _ hr, hkw, afind?_aset_self]

end AssocLemmas

/-! ## Generic fold lemmas -/

theorem foldl_preserves {β γ : Type} (P : β → Prop) (f : β → γ → β) (l : List γ)
    (hstep : ∀ b a, a ∈ l → P b → P (f b a)) (b0 : β) (h0 : P b0) :
    P (l.foldl f b0) := by
  induction l generalizing b0 with
  | nil => exact h0
  | cons a rest ih =>
    exact ih (fun b x hx hb => hstep b x (by simp [hx]) hb) _ (hstep b0 a (by simp) h0)

theorem foldl_add_sum {γ : Type} (f : γ → ℚ) (l : List γ) (a : ℚ) :
    l.foldl (fun acc x => acc + f x) a = a + (l.map f).sum := by
  induction l generalizing a with
  | nil => simp
  | cons x rest ih => simp [ih, add_assoc]

/-! ## Stable-sort lemmas -/

theorem insertById_perm (a : EmployeeAssignment) (l : List EmployeeAssignment) :
    List.Perm (insertById a l) (a :: l) := by
  induction l with
  | nil => exact List.Perm.refl _
  | cons b rest ih =>
    unfold insertById
    split
    · exact (List.Perm.cons b ih).trans (List.Perm.swap a b rest)
    · exact List.Perm.refl _

theorem foldl_insertById_perm (l acc : List EmployeeAssignment) :
    List.Perm (l.foldl (fun acc2 a => insertById a acc2) acc) (acc ++ l) := by
  induction l generalizing acc with
  | nil => simp
  | cons a rest ih =>
    simp only [List.foldl_cons]
    have h1 := ih (insertById a acc)
    have h2 : List.Perm (insertById a acc ++ rest) ((a :: acc) ++ rest) :=
      (insertById_perm a acc).append_right rest
    have h3 : List.Perm ((a :: acc) ++ rest) (acc ++ a :: rest) := by
      simpa using List.perm_middle.symm
    exact (h1.trans h2).trans h3

theorem normalizeAssignments_perm (l : List EmployeeAssignment) :
    List.Perm (normalizeAssignments l) l := by
  simpa using foldl_insertById_perm l []

theorem mem_normalize {a : EmployeeAssignment} {l : List EmployeeAssignment} :
    a ∈ normalizeAssignments l ↔ a ∈ l :=
  (normalizeAssignments_perm l).mem_iff

/-! ## Specification lemmas for the mutation interface -/

theorem orderCost_total (costs : List (String × ℚ)) (q : List (String × ℤ))
    (hq : ∀ p ∈ q, ahas costs p.1 = true) : ∃ v, orderCost costs q = some v := by
  induction q with
  | nil => exact ⟨Sum.inr 0, rfl⟩
  | cons p rest ih =>
    unfold orderCost
    by_cases hneg : p.2 < 0
    · rw [if_pos hneg]; exact ⟨_, rfl⟩
    · rw [if_neg hneg]
      have hh := hq p (by simp)
      unfold ahas at hh
      cases hf : afind? costs p.1 with
      | none => rw [hf] at hh; simp at hh
      | some c =>
        rcases ih (fun x hx => hq x (by simp [hx])) with ⟨v, hv⟩
        rw [hv]
        cases v with
        | inl r => exact ⟨_, rfl⟩
        | inr acc => exact ⟨_, rfl⟩

theorem orderCost_inr_spec (costs : List (String × ℚ)) (q : List (String × ℤ))
    (c : ℚ) (h : orderCost costs q = some (Sum.inr c)) :
    c = totalCost costs q ∧ ∀ p ∈ q, 0 ≤ p.2 := by
  induction q generalizing c with
  | nil =>
    simp only [orderCost, Option.some.injEq, Sum.inr.injEq] at h
    subst h
    exact ⟨by simp [totalCost], by simp⟩
  | cons p rest ih =>
    unfold orderCost at h
    by_cases hneg : p.2 < 0
    · rw [if_pos hneg] at h; simp at h
    · rw [if_neg hneg] at h
      cases hf : afind? costs p.1 with
      | none => rw [hf] at h; cases h
      | some cu =>
        rw [hf] at h
        cases hr : orderCost costs rest with
        | none => rw [hr] at h; cases h
        | some v =>
          rw [hr] at h
          cases v with
          | inl r => simp at h
          | inr acc =>
            simp only [Option.some.injEq, Sum.inr.injEq] at h
            rcases ih acc hr with ⟨hsum, hpos⟩
            constructor
            · rw [← h, hsum]
              unfold totalCost aget
              simp [hf]
            · intro x hx
              rcases List.mem_cons.mp hx with h1 | h1
              · rw [h1]; exact le_of_not_lt hneg
              · exact hpos x h1

theorem place_order_cases (cfg : Config) (s : State) (q : List (String × ℤ))
    (w : List ℤ) (r : ToolResult) (s1 : State)
    (h : place_order cfg s q w = some (r, s1)) :
    (r.ok = false ∧ r.reason.isSome = true ∧ s1 = s) ∨
    (r.ok = true ∧ ∃ cost, orderCost cfg.costs q = some (Sum.inr cost) ∧
      w.isEmpty = false ∧
      validateWorkers cfg.num_workers s.workers_on_trip [] w = none ∧
      ¬ ((w.length : ℚ) * cfg.worker_max_carry_weight + tol <
          totalWeight cfg.ingredient_weights q) ∧
      ¬ (s.cash < cost) ∧
      s1 = acceptOrder cfg s q w cost) := by
  unfold place_order at h
  cases hoc : orderCost cfg.costs q with
  | none => rw [hoc] at h; cases h
  | some v =>
    rw [hoc] at h
    cases v with
    | inl reason =>
      simp only [Option.some.injEq, Prod.mk.injEq] at h
      left
      rw [← h.1]
      exact ⟨rfl, rfl, h.2.symm⟩
    | inr cost =>
      cases hemp : w.isEmpty with
      | true =>
        rw [hemp] at h
        simp only [if_true, Option.some.injEq, Prod.mk.injEq] at h
        left
        rw [← h.1]
        exact ⟨rfl, rfl, h.2.symm⟩
      | false =>
        rw [hemp] at h
        simp only [Bool.false_eq_true, if_false] at h
        cases hval : validateWorkers cfg.num_workers s.workers_on_trip [] w with
        | some reason =>
          rw [hval] at h
          simp only [Option.some.injEq, Prod.mk.injEq] at h
          left
          rw [← h.1]
          exact ⟨rfl, rfl, h.2.symm⟩
        | none =>
          rw [hval] at h
          by_cases hwt : (w.length : ℚ) * cfg.worker_max_carry_weight + tol <
              totalWeight cfg.ingredient_weights q
          · rw [if_pos hwt] at h
            simp only [Option.some.injEq, Prod.mk.injEq] at h
            left
            rw [← h.1]
            exact ⟨rfl, rfl, h.2.symm⟩
          · rw [if_neg hwt] at h
            by_cases hcash : s.cash < cost
            · rw [if_pos hcash] at h
              simp only [Option.some.injEq, Prod.mk.injEq] at h
              left
              rw [← h.1]
              exact ⟨rfl, rfl, h.2.symm⟩
            · rw [if_neg hcash] at h
              simp only [Option.some.injEq, Prod.mk.injEq] at h
              right
              rw [← h.1]
              exact ⟨rfl, cost, rfl, rfl, rfl, hwt, hcash, h.2.symm⟩

theorem validateAssignments_none_spec (numW : ℤ) (onTrip : List (ℤ × ℤ))
    (seen : List ℤ) (l : List EmployeeAssignment)
    (h : validateAssignments numW onTrip seen l = none) :
    ∀ a ∈ l, ahas onTrip a.employee_id = false := by
  induction l generalizing seen with
  | nil => intro a ha; cases ha
  | cons a rest ih =>
    unfold validateAssignments at h
    split at h
    · cases h
    · rename_i hrange
      split at h
      · cases h
      · rename_i htrip
        split at h
        · cases h
        · split at h
          · cases h
          · intro x hx
            rcases List.mem_cons.mp hx with h1 | h1
            · rw [h1]
              simpa using htrip
            · exact ih _ h x h1

theorem set_prices_fail_spec (s : State) (m : List (String × ℚ))
    (h : (set_prices s m).1.ok = false) :
    (set_prices s m).1.reason.isSome = true ∧ (set_prices s m).2 = s := by
  unfold set_prices at h ⊢
  cases hf : m.find? (fun p => decide (p.2 < 0)) with
  | some p => simp [hf]
  | none => rw [hf] at h; simp at h

theorem set_prices_fields (s : State) (m : List (String × ℚ)) :
    (set_prices s m).2.worker_assignments = s.worker_assignments ∧
    (set_prices s m).2.workers_on_trip = s.workers_on_trip ∧
    (set_prices s m).2.cash = s.cash ∧
    (set_prices s m).2.stock_on_hand = s.stock_on_hand ∧
    (set_prices s m).2.inbound_deliveries = s.inbound_deliveries ∧
    (set_prices s m).2.order_queue = s.order_queue := by
  unfold set_prices
  cases hf : m.find? (fun p => decide (p.2 < 0)) <;> simp

theorem set_prices_prices_spec (s : State) (m : List (String × ℚ)) :
    (set_prices s m).2.prices = s.prices ∨
    ((∀ p ∈ m, 0 ≤ p.2) ∧ (set_prices s m).2.prices = aupdate s.prices m) := by
  unfold set_prices
  cases hf : m.find? (fun p => decide (p.2 < 0)) with
  | some p => left; simp [hf]
  | none =>
    right
    constructor
    · intro p hp
      have hnone := List.find?_eq_none.mp hf p hp
      simpa using le_of_not_lt (by simpa using hnone)
    · simp [hf]

theorem assign_workers_cases (cfg : Config) (s : State) (l : List EmployeeAssignment) :
    ((assign_workers cfg s l).1.ok = false ∧
      (assign_workers cfg s l).1.reason.isSome = true ∧
      (assign_workers cfg s l).2 = s) ∨
    ((assign_workers cfg s l).1.ok = true ∧
      validateAssignments cfg.num_workers s.workers_on_trip [] l = none ∧
      (assign_workers cfg s l).2 = setWorkerAssignments s l) := by
  unfold assign_workers
  cases hv : validateAssignments cfg.num_workers s.workers_on_trip [] l with
  | some r => left; simp
  | none =>
    cases hc : capCheck l with
    | some r => left; simp
    | none => right; simp

/-! ## Fulfillment-scan lemmas -/

theorem neededIngredients_keys_nodup (recipes : List (String × List (String × ℚ)))
    (items : List (String × ℤ)) :
    (((neededIngredients recipes items).map Prod.fst)).Nodup := by
  unfold neededIngredients
  refine foldl_preserves
    (fun (m : List (String × ℚ)) => ((m.map Prod.fst)).Nodup) _ _ ?_ _ (by simp)
  intro m it _ hm
  refine foldl_preserves
    (fun (m2 : List (String × ℚ)) => ((m2.map Prod.fst)).Nodup) _ _ ?_ _ hm
  intro m2 q _ h2
  by_cases hq : q.2 ≤ 0
  · rwa [if_pos hq]
  · rw [if_neg hq]
    exact keys_aset_nodup h2

theorem canFulfill_iff (stock needed : List (String × ℚ)) :
    canFulfill stock needed = true ↔ ∀ p ∈ needed, p.2 ≤ aget stock p.1 0 + tol := by
  unfold canFulfill
  simp [List.all_eq_true]

theorem stock_decrement_bound : ∀ (needed stock : List (String × ℚ)),
    ((needed.map Prod.fst)).Nodup →
    (∀ p ∈ needed, p.2 ≤ aget stock p.1 0 + tol) →
    (∀ p ∈ stock, -tol ≤ p.2) →
    ∀ p ∈ needed.foldl (fun m p => aset m p.1 (aget m p.1 0 - p.2)) stock, -tol ≤ p.2 := by
  intro needed
  induction needed with
  | nil =>
    intro stock _ _ hstock
    simpa using hstock
  | cons q rest ih =>
    intro stock hnodup hcov hstock
    simp only [List.foldl_cons]
    have hval : -tol ≤ aget stock q.1 0 - q.2 := by
      have := hcov q (by simp)
      linarith
    have hnd : (q.1 :: rest.map Prod.fst).Nodup := by simpa using hnodup
    have hq1 : q.1 ∉ rest.map Prod.fst := (List.nodup_cons.mp hnd).1
    have hrest : ((rest.map Prod.fst)).Nodup := (List.nodup_cons.mp hnd).2
    refine ih _ hrest ?_ (aset_bound hstock hval)
    intro p hp
    have hne : p.1 ≠ q.1 := by
      intro he
      exact hq1 (he ▸ List.mem_map_of_mem Prod.fst hp)
    have hsame : aget (aset stock q.1 (aget stock q.1 0 - q.2)) p.1 0 = aget stock p.1 0 := by
      unfold aget
      rw [afind?_aset_ne hne]
    rw [hsame]
    exact hcov p (by simp [hp])

theorem sold_increment_bound : ∀ (items sold : List (String × ℤ)),
    (∀ p ∈ items, 0 ≤ p.2) → (∀ p ∈ sold, 0 ≤ p.2) →
    ∀ p ∈ items.foldl (fun m p => aset m p.1 (aget m p.1 0 + p.2)) sold, 0 ≤ p.2 := by
  intro items
  induction items with
  | nil =>
    intro sold _ hsold
    simpa using hsold
  | cons q rest ih =>
    intro sold hitems hsold
    simp only [List.foldl_cons]
    refine ih _ (fun x hx => hitems x (by simp [hx])) ?_
    refine aset_bound hsold ?_
    exact add_nonneg (aget_bound hsold le_rfl) (hitems q (by simp))

theorem scanOrders_invariant (recipes : List (String × List (String × ℚ)))
    (orders : List Order) (st : ScanState)
    (horders : ∀ o ∈ orders, ∀ p ∈ o.items, 0 ≤ p.2)
    (hstock : ∀ p ∈ st.stock, -tol ≤ p.2)
    (hsold : ∀ p ∈ st.sold_products, 0 ≤ p.2)
    (hqueue : ∀ o ∈ st.next_queue, ∀ p ∈ o.items, 0 ≤ p.2) :
    (∀ p ∈ (scanOrders recipes orders st).stock, -tol ≤ p.2) ∧
    (∀ p ∈ (scanOrders recipes orders st).sold_products, 0 ≤ p.2) ∧
    (∀ o ∈ (scanOrders recipes orders st).next_queue, ∀ p ∈ o.items, 0 ≤ p.2) := by
  induction orders generalizing st with
  | nil => exact ⟨hstock, hsold, hqueue⟩
  | cons o rest ih =>
    have horest : ∀ o2 ∈ rest, ∀ p ∈ o2.items, 0 ≤ p.2 :=
      fun o2 h2 => horders o2 (by simp [h2])
    have hohead : ∀ p ∈ o.items, 0 ≤ p.2 := horders o (by simp)
    unfold scanOrders
    by_cases hc : st.remaining_customers ≤ 0
    · rw [if_pos hc]
      refine ⟨hstock, hsold, ?_⟩
      intro o2 ho2
      rcases List.mem_append.mp ho2 with h2 | h2
      · exact hqueue o2 h2
      · exact horders o2 h2
    · rw [if_neg hc]
      by_cases htx : st.remaining_txistorra + tol < orderTxistorraNeed recipes o.items
      · rw [if_pos htx]
        refine ih _ horest hstock hsold ?_
        intro o2 ho2
        rcases List.mem_append.mp ho2 with h2 | h2
        · exact hqueue o2 h2
        · rw [List.mem_singleton.mp h2]
          exact hohead
      · rw [if_neg htx]
        by_cases hsd : st.remaining_sidra + tol < orderSidraNeed recipes o.items
        · rw [if_pos hsd]
          refine ih _ horest hstock hsold ?_
          intro o2 ho2
          rcases List.mem_append.mp ho2 with h2 | h2
          · exact hqueue o2 h2
          · rw [List.mem_singleton.mp h2]
            exact hohead
        · rw [if_neg hsd]
          by_cases hcf : canFulfill st.stock (neededIngredients recipes o.items) = true
          · rw [if_neg (by simpa using hcf)]
            refine ih _ horest ?_ ?_ hqueue
            · exact stock_decrement_bound _ _ (neededIngredients_keys_nodup recipes o.items)
                ((canFulfill_iff _ _).mp hcf) hstock
            · exact sold_increment_bound _ _ hohead hsold
          · rw [if_pos (by simpa using hcf)]
            refine ih _ horest hstock hsold ?_
            intro o2 ho2
            rcases List.mem_append.mp ho2 with h2 | h2
            · exact hqueue o2 h2
            · rw [List.mem_singleton.mp h2]
              exact hohead

theorem computeRevenue_nonneg (prices : List (String × ℚ)) (sold : List (String × ℤ))
    (hprices : ∀ p ∈ prices, 0 ≤ p.2) (hsold : ∀ p ∈ sold, 0 ≤ p.2)
    (r : ℚ) (h : computeRevenue prices sold = some r) : 0 ≤ r := by
  induction sold generalizing r with
  | nil =>
    simp only [computeRevenue, Option.some.injEq] at h
    rw [← h]
  | cons p rest ih =>
    unfold computeRevenue at h
    cases hf : afind? prices p.1 with
    | none => rw [hf] at h; cases h
    | some pr =>
      rw [hf] at h
      cases hr : computeRevenue prices rest with
      | none => rw [hr] at h; cases h
      | some acc =>
        rw [hr] at h
        simp only [Option.some.injEq] at h
        rw [← h]
        have h1 : 0 ≤ pr := hprices (p.1, pr) (mem_of_afind? hf)
        have h2 : (0 : ℚ) ≤ (p.2 : ℚ) := by
          exact_mod_cast hsold p (by simp)
        have h3 : 0 ≤ acc := ih (fun x hx => hsold x (by simp [hx])) acc hr
        positivity

theorem setWorkerAssignments_fields (s : State) (l : List EmployeeAssignment) :
    (setWorkerAssignments s l).cash = s.cash ∧
    (setWorkerAssignments s l).stock_on_hand = s.stock_on_hand ∧
    (setWorkerAssignments s l).prices = s.prices ∧
    (setWorkerAssignments s l).inbound_deliveries = s.inbound_deliveries ∧
    (setWorkerAssignments s l).order_queue = s.order_queue ∧
    (setWorkerAssignments s l).workers_on_trip = s.workers_on_trip ∧
    (setWorkerAssignments s l).worker_assignments = normalizeAssignments l := by
  unfold setWorkerAssignments
  exact ⟨rfl, rfl, rfl, rfl, rfl, rfl, rfl⟩

/-! ## Preservation of the engine invariant -/

theorem initState_good (cfg : Config) (h : ValidConfig cfg) :
    GoodState (initState cfg) := by
  obtain ⟨hc, hs, hp⟩ := h
  have htol : (0 : ℚ) < tol := by norm_num [tol]
  refine ⟨hc, ?_, hp, ?_, ?_⟩
  · intro p hp2
    have := hs p hp2
    linarith
  · intro d hd
    cases hd
  · intro o ho
    cases ho

theorem updateWorkerTrips_good (s : State) (h : GoodState s) :
    GoodState (updateWorkerTrips s) := by
  simpa [updateWorkerTrips, GoodState] using h

theorem advance_turn_good (s : State) (h : GoodState s) :
    GoodState { s with turn := s.turn + 1 } := by
  simpa [GoodState] using h

theorem receiveDeliveries_good (s : State) (h : GoodState s) :
    GoodState (receiveDeliveries s) := by
  obtain ⟨hcash, hstock, hprices, hinb, hqueue⟩ := h
  refine ⟨hcash, ?_, hprices, ?_, hqueue⟩
  · show ∀ p ∈ (receiveDeliveries s).stock_on_hand, -tol ≤ p.2
    unfold receiveDeliveries
    refine foldl_preserves
      (fun (st : List (String × ℚ)) => ∀ p ∈ st, -tol ≤ p.2) _ _ ?_ _ hstock
    intro st d hd hst
    have hdq : ∀ q ∈ d.quantities, 0 ≤ q.2 :=
      hinb d (List.mem_of_mem_filter hd)
    refine foldl_preserves
      (fun (st2 : List (String × ℚ)) => ∀ p ∈ st2, -tol ≤ p.2) _ _ ?_ _ hst
    intro st2 q hq hst2
    refine aset_bound hst2 ?_
    have h1 : -tol ≤ aget st2 q.1 0 := aget_bound hst2 (by norm_num [tol])
    have h2 : (0 : ℚ) ≤ (q.2 : ℚ) := by exact_mod_cast hdq q hq
    linarith
  · show ∀ d ∈ (receiveDeliveries s).inbound_deliveries, ∀ q ∈ d.quantities, 0 ≤ q.2
    intro d hd
    exact hinb d (List.mem_of_mem_filter hd)

theorem set_prices_good (s : State) (m : List (String × ℚ)) (h : GoodState s) :
    GoodState (set_prices s m).2 := by
  obtain ⟨hcash, hstock, hprices, hinb, hqueue⟩ := h
  obtain ⟨_, _, hc, hs, hi, hq⟩ := set_prices_fields s m
  refine ⟨hc ▸ hcash, hs ▸ hstock, ?_, hi ▸ hinb, hq ▸ hqueue⟩
  rcases set_prices_prices_spec s m with hp | ⟨hm, hp⟩
  · exact hp ▸ hprices
  · rw [hp]
    exact aupdate_bound hprices hm

theorem place_order_good (cfg : Config) (s : State) (q : List (String × ℤ))
    (w : List ℤ) (r : ToolResult) (s1 : State)
    (h : place_order cfg s q w = some (r, s1)) (hg : GoodState s) : GoodState s1 := by
  rcases place_order_cases cfg s q w r s1 h with ⟨_, _, hs⟩ |
    ⟨_, cost, hoc, _, _, _, hcash, hs⟩
  · rwa [hs]
  · subst hs
    obtain ⟨hc, hst, hpr, hin, hqu⟩ := hg
    rcases orderCost_inr_spec _ _ _ hoc with ⟨_, hqpos⟩
    refine ⟨?_, ?_, ?_, ?_, ?_⟩
    · show (0 : ℚ) ≤ s.cash - cost
      have := le_of_not_lt hcash
      linarith
    · show ∀ p ∈ s.stock_on_hand, -tol ≤ p.2
      exact hst
    · show ∀ p ∈ s.prices, 0 ≤ p.2
      exact hpr
    · show ∀ d ∈ s.inbound_deliveries ++
          [{ arrival_turn := s.turn + cfg.lead_time, quantities := q }], ∀ x ∈ d.quantities, 0 ≤ x.2
      intro d hd
      rcases List.mem_append.mp hd with h1 | h1
      · exact hin d h1
      · rw [List.mem_singleton.mp h1]
        exact hqpos
    · show ∀ o ∈ s.order_queue, ∀ p ∈ o.items, 0 ≤ p.2
      exact hqu

theorem assign_workers_good (cfg : Config) (s : State) (l : List EmployeeAssignment)
    (h : GoodState s) : GoodState (assign_workers cfg s l).2 := by
  rcases assign_workers_cases cfg s l with ⟨_, _, hs⟩ | ⟨_, _, hs⟩
  · rwa [hs]
  · rw [hs]
    obtain ⟨hcash, hstock, hprices, hinb, hqueue⟩ := h
    obtain ⟨hc, hst, hp, hi, hq, _, _⟩ := setWorkerAssignments_fields s l
    exact ⟨hc ▸ hcash, hst ▸ hstock, hp ▸ hprices, hi ▸ hinb, hq ▸ hqueue⟩

theorem simulate_invariant (cfg : Config) (s : State) (orders : List Order) (ncust : ℕ)
    (horders : ∀ o ∈ orders, ∀ p ∈ o.items, 0 ≤ p.2)
    (hst : ∀ p ∈ s.stock_on_hand, -tol ≤ p.2)
    (hqu : ∀ o ∈ s.order_queue, ∀ p ∈ o.items, 0 ≤ p.2) :
    (∀ p ∈ (simulateDemandAndSales cfg s orders ncust).1.stock_on_hand, -tol ≤ p.2) ∧
    (∀ o ∈ (simulateDemandAndSales cfg s orders ncust).1.order_queue, ∀ p ∈ o.items, 0 ≤ p.2) ∧
    (∀ p ∈ (simulateDemandAndSales cfg s orders ncust).2.sold_products, 0 ≤ p.2) := by
  have hall : ∀ o ∈ s.order_queue.filter (fun o => ¬ agedOut s.turn o) ++ orders,
      ∀ p ∈ o.items, 0 ≤ p.2 := by
    intro o ho
    rcases List.mem_append.mp ho with h1 | h1
    · exact hqu o (List.mem_of_mem_filter h1)
    · exact horders o h1
  have hmain := scanOrders_invariant cfg.recipes
    (s.order_queue.filter (fun o => ¬ agedOut s.turn o) ++ orders)
    { remaining_customers := s.worker_capacities.customers_per_turn
      remaining_txistorra := s.worker_capacities.txistorra_strips_per_turn
      remaining_sidra := s.worker_capacities.sidra_bottles_per_turn
      stock := s.stock_on_hand
      sold_products := [(kPintxo, 0), (kBocadillo, 0), (kSidra, 0)]
      unserved_orders := []
      next_queue := []
      orders_served := []
      served_customers := 0
      blocked_by_customers_capacity := 0
      blocked_by_grill_capacity := 0
      blocked_by_sidra_capacity := 0
      blocked_by_stock := false }
    hall hst (by intro p hp; fin_cases hp <;> simp) (by intro o ho; cases ho)
  exact ⟨hmain.1, hmain.2.2, hmain.2.1⟩

theorem simulate_fields (cfg : Config) (s : State) (orders : List Order) (ncust : ℕ) :
    (simulateDemandAndSales cfg s orders ncust).1.cash = s.cash ∧
    (simulateDemandAndSales cfg s orders ncust).1.prices = s.prices ∧
    (simulateDemandAndSales cfg s orders ncust).1.inbound_deliveries = s.inbound_deliveries ∧
    (simulateDemandAndSales cfg s orders ncust).1.worker_assignments = s.worker_assignments ∧
    (simulateDemandAndSales cfg s orders ncust).1.workers_on_trip = s.workers_on_trip ∧
    (simulateDemandAndSales cfg s orders ncust).1.turn = s.turn := by
  unfold simulateDemandAndSales
  exact ⟨rfl, rfl, rfl, rfl, rfl, rfl⟩

theorem settleStep_good (cfg : Config) (s : State) (orders : List Order) (ncust : ℕ)
    (s1 : State) (res : SalesResult) (rev : ℚ)
    (h : settleStep cfg s orders ncust = some (s1, res, rev))
    (horders : ∀ o ∈ orders, ∀ p ∈ o.items, 0 ≤ p.2)
    (hg : GoodState s) : GoodState s1 := by
  obtain ⟨hcash, hstock, hprices, hinb, hqueue⟩ := hg
  obtain ⟨hsim_stock, hsim_queue, hsim_sold⟩ :=
    simulate_invariant cfg s orders ncust horders hstock hqueue
  obtain ⟨hfc, hfp, hfi, _, _, _⟩ := simulate_fields cfg s orders ncust
  unfold settleStep at h
  cases hr : computeRevenue (simulateDemandAndSales cfg s orders ncust).1.prices
      (simulateDemandAndSales cfg s orders ncust).2.sold_products with
  | none => rw [hr] at h; cases h
  | some rv =>
    rw [hr] at h
    simp only [Option.some.injEq, Prod.mk.injEq] at h
    obtain ⟨hs1, _, hrev⟩ := h
    have hrv : 0 ≤ rv := by
      refine computeRevenue_nonneg _ _ ?_ hsim_sold rv hr
      rw [hfp]
      exact hprices
    rw [← hs1]
    refine ⟨?_, hsim_stock, ?_, ?_, hsim_queue⟩
    · show (0 : ℚ) ≤ (simulateDemandAndSales cfg s orders ncust).1.cash + rv
      rw [hfc]
      linarith
    · show ∀ p ∈ (simulateDemandAndSales cfg s orders ncust).1.prices, 0 ≤ p.2
      rw [hfp]
      exact hprices
    · show ∀ d ∈ (simulateDemandAndSales cfg s orders ncust).1.inbound_deliveries,
          ∀ q ∈ d.quantities, 0 ≤ q.2
      rw [hfi]
      exact hinb

theorem ahas_false_iff {κ α : Type} [DecidableEq κ] (m : List (κ × α)) (k : κ) :
    ahas m k = false ↔ afind? m k = none := by
  unfold ahas
  cases afind? m k <;> simp

theorem afind?_decay_none (m : List (ℤ × ℤ)) (k : ℤ) (h : afind? m k = none) :
    afind? ((m.map (fun p => (p.1, p.2 - 1))).filter (fun p => decide (0 < p.2))) k = none := by
  rw [afind?_eq_none_iff] at h ⊢
  intro p hp
  have hp2 := List.mem_of_mem_filter hp
  rcases List.mem_map.mp hp2 with ⟨q, hq, hqe⟩
  rw [← hqe]
  exact h q hq

theorem acceptOrder_fields (cfg : Config) (s : State) (q : List (String × ℤ))
    (w : List ℤ) (cost : ℚ) :
    (acceptOrder cfg s q w cost).worker_assignments =
      normalizeAssignments (s.worker_assignments.filter (fun a => decide (a.employee_id ∉ w))) ∧
    (acceptOrder cfg s q w cost).workers_on_trip =
      w.foldl (fun m x => aset m x (cfg.lead_time : ℤ)) s.workers_on_trip ∧
    (acceptOrder cfg s q w cost).cash = s.cash - cost ∧
    (acceptOrder cfg s q w cost).inbound_deliveries =
      s.inbound_deliveries ++ [{ arrival_turn := s.turn + cfg.lead_time, quantities := q }] ∧
    (acceptOrder cfg s q w cost).stock_on_hand = s.stock_on_hand ∧
    (acceptOrder cfg s q w cost).order_queue = s.order_queue ∧
    (acceptOrder cfg s q w cost).prices = s.prices ∧
    (acceptOrder cfg s q w cost).turn = s.turn := by
  unfold acceptOrder setWorkerAssignments
  exact ⟨rfl, rfl, rfl, rfl, rfl, rfl, rfl, rfl⟩

theorem receiveDeliveries_worker_fields (s : State) :
    (receiveDeliveries s).worker_assignments = s.worker_assignments ∧
    (receiveDeliveries s).workers_on_trip = s.workers_on_trip := by
  unfold receiveDeliveries
  exact ⟨rfl, rfl⟩

theorem settleStep_worker_fields (cfg : Config) (s : State) (orders : List Order)
    (ncust : ℕ) (s1 : State) (res : SalesResult) (rev : ℚ)
    (h : settleStep cfg s orders ncust = some (s1, res, rev)) :
    s1.worker_assignments = s.worker_assignments ∧
    s1.workers_on_trip = s.workers_on_trip := by
  obtain ⟨_, _, _, hwa, hwt, _⟩ := simulate_fields cfg s orders ncust
  unfold settleStep at h
  cases hr : computeRevenue (simulateDemandAndSales cfg s orders ncust).1.prices
      (simulateDemandAndSales cfg s orders ncust).2.sold_products with
  | none => rw [hr] at h; cases h
  | some rv =>
    rw [hr] at h
    simp only [Option.some.injEq, Prod.mk.injEq] at h
    rw [← h.1]
    exact ⟨hwa, hwt⟩

theorem workerDisjoint_of_reach (cfg : Config) (s : State) (h : Reach cfg s) :
    WorkerDisjoint s := by
  induction h with
  | init =>
    intro a _
    rfl
  | set_prices_call s2 m _ ih =>
    obtain ⟨hwa, hwt, _, _, _, _⟩ := set_prices_fields s2 m
    intro a ha
    rw [hwt]
    exact ih a (hwa ▸ ha)
  | place_order_call s2 q w r s1 _ hp ih =>
    rcases place_order_cases cfg s2 q w r s1 hp with ⟨_, _, hs⟩ |
      ⟨_, cost, _, _, _, _, _, hs⟩
    · rw [hs]; exact ih
    · subst hs
      obtain ⟨hwa, hwt, _, _, _, _, _, _⟩ := acceptOrder_fields cfg s2 q w cost
      intro a ha
      rw [hwa] at ha
      have hmem := mem_normalize.mp ha
      have hfil := List.mem_filter.mp hmem
      have hnotin : a.employee_id ∉ w := by simpa using hfil.2
      rw [hwt]
      rw [afind?_foldl_aset_notmem w _ hnotin]
      exact ih a hfil.1
  | assign_workers_call s2 l _ ih =>
    rcases assign_workers_cases cfg s2 l with ⟨_, _, hs⟩ | ⟨_, hval, hs⟩
    · rw [hs]; exact ih
    · rw [hs]
      obtain ⟨_, _, _, _, _, hwt, hwa⟩ := setWorkerAssignments_fields s2 l
      intro a ha
      rw [hwa] at ha
      rw [hwt]
      have := validateAssignments_none_spec cfg.num_workers s2.workers_on_trip [] l hval
        a (mem_normalize.mp ha)
      exact (ahas_false_iff _ _).mp this
  | advance_turn s2 _ ih =>
    intro a ha
    exact ih a ha
  | trips s2 _ ih =>
    intro a ha
    exact afind?_decay_none _ _ (ih a ha)
  | deliveries s2 _ ih =>
    obtain ⟨hwa, hwt⟩ := receiveDeliveries_worker_fields s2
    intro a ha
    rw [hwt]
    exact ih a (hwa ▸ ha)
  | demand_sales s2 orders ncust s1 res rev _ ho hs ih =>
    obtain ⟨hwa, hwt⟩ := settleStep_worker_fields cfg s2 orders ncust s1 res rev hs
    intro a ha
    rw [hwt]
    exact ih a (hwa ▸ ha)

theorem goodState_of_reach (cfg : Config) (hv : ValidConfig cfg) (s : State)
    (h : Reach cfg s) : GoodState s := by
  induction h with
  | init => exact initState_good cfg hv
  | set_prices_call s2 m _ ih => exact set_prices_good s2 m ih
  | place_order_call s2 q w r s1 _ hp ih => exact place_order_good cfg s2 q w r s1 hp ih
  | assign_workers_call s2 l _ ih => exact assign_workers_good cfg s2 l ih
  | advance_turn s2 _ ih => exact advance_turn_good s2 ih
  | trips s2 _ ih => exact updateWorkerTrips_good s2 ih
  | deliveries s2 _ ih => exact receiveDeliveries_good s2 ih
  | demand_sales s2 orders ncust s1 res rev _ ho hs ih =>
    exact settleStep_good cfg s2 orders ncust s1 res rev hs
      (fun o hoo => (ho o hoo).2) ih

/-! ## Totality of the settlement, and settlement field lemmas -/

theorem computeRevenue_total (prices : List (String × ℚ)) (sold : List (String × ℤ))
    (h : ∀ p ∈ sold, ahas prices p.1 = true) :
    ∃ r, computeRevenue prices sold = some r := by
  induction sold with
  | nil => exact ⟨0, rfl⟩
  | cons p rest ih =>
    have hp := h p (by simp)
    unfold ahas at hp
    unfold computeRevenue
    cases hf : afind? prices p.1 with
    | none => rw [hf] at hp; simp at hp
    | some pr =>
      rcases ih (fun x hx => h x (by simp [hx])) with ⟨r, hr⟩
      rw [hr]
      exact ⟨_, rfl⟩

theorem scanOrders_sold_keys (P : String → Prop)
    (recipes : List (String × List (String × ℚ))) :
    ∀ (orders : List Order) (st : ScanState),
    (∀ p ∈ st.sold_products, P p.1) →
    (∀ o ∈ orders, ∀ it ∈ o.items, P it.1) →
    ∀ p ∈ (scanOrders recipes orders st).sold_products, P p.1 := by
  intro orders
  induction orders with
  | nil =>
    intro st hst _
    simpa [scanOrders] using hst
  | cons o rest ih =>
    intro st hst horders
    have horest : ∀ o2 ∈ rest, ∀ it ∈ o2.items, P it.1 :=
      fun o2 h2 => horders o2 (by simp [h2])
    have hohead : ∀ it ∈ o.items, P it.1 := horders o (by simp)
    unfold scanOrders
    by_cases hc : st.remaining_customers ≤ 0
    · rw [if_pos hc]
      exact hst
    · rw [if_neg hc]
      by_cases htx : st.remaining_txistorra + tol < orderTxistorraNeed recipes o.items
      · rw [if_pos htx]
        exact ih _ hst horest
      · rw [if_neg htx]
        by_cases hsd : st.remaining_sidra + tol < orderSidraNeed recipes o.items
        · rw [if_pos hsd]
          exact ih _ hst horest
        · rw [if_neg hsd]
          by_cases hcf : canFulfill st.stock (neededIngredients recipes o.items) = true
          · rw [if_neg (by simpa using hcf)]
            refine ih _ ?_ horest
            show ∀ p ∈ o.items.foldl
              (fun m p => aset m p.1 (aget m p.1 0 + p.2)) st.sold_products, P p.1
            have hgen : ∀ (items : List (String × ℤ)) (sold : List (String × ℤ)),
                (∀ it ∈ items, P it.1) → (∀ p ∈ sold, P p.1) →
                ∀ p ∈ items.foldl (fun m p => aset m p.1 (aget m p.1 0 + p.2)) sold, P p.1 := by
              intro items
              induction items with
              | nil =>
                intro sold _ hsold
                simpa using hsold
              | cons q qrest qih =>
                intro sold hit hsold
                simp only [List.foldl_cons]
                refine qih _ (fun x hx => hit x (by simp [hx])) ?_
                intro p hp
                rcases mem_aset hp with hh | hh
                · rw [hh]
                  exact hit q (by simp)
                · exact hsold p hh
            exact hgen o.items st.sold_products hohead hst
          · rw [if_pos (by simpa using hcf)]
            exact ih _ hst horest

theorem settleStep_total (cfg : Config) (s : State) (orders : List Order) (ncust : ℕ)
    (hp3 : ahas s.prices kPintxo = true ∧ ahas s.prices kBocadillo = true ∧
      ahas s.prices kSidra = true)
    (hqu : ∀ o ∈ s.order_queue, ∀ it ∈ o.items, ahas s.prices it.1 = true)
    (hor : ∀ o ∈ orders, ∀ it ∈ o.items, ahas s.prices it.1 = true) :
    ∃ out, settleStep cfg s orders ncust = some out := by
  have hsold : ∀ p ∈ (simulateDemandAndSales cfg s orders ncust).2.sold_products,
      ahas s.prices p.1 = true := by
    have hin : ∀ o ∈ s.order_queue.filter (fun o => ¬ agedOut s.turn o) ++ orders,
        ∀ it ∈ o.items, ahas s.prices it.1 = true := by
      intro o ho
      rcases List.mem_append.mp ho with h1 | h1
      · exact hqu o (List.mem_of_mem_filter h1)
      · exact hor o h1
    have := scanOrders_sold_keys (fun k => ahas s.prices k = true) cfg.recipes
      (s.order_queue.filter (fun o => ¬ agedOut s.turn o) ++ orders)
      { remaining_customers := s.worker_capacities.customers_per_turn
        remaining_txistorra := s.worker_capacities.txistorra_strips_per_turn
        remaining_sidra := s.worker_capacities.sidra_bottles_per_turn
        stock := s.stock_on_hand
        sold_products := [(kPintxo, 0), (kBocadillo, 0), (kSidra, 0)]
        unserved_orders := []
        next_queue := []
        orders_served := []
        served_customers := 0
        blocked_by_customers_capacity := 0
        blocked_by_grill_capacity := 0
        blocked_by_sidra_capacity := 0
        blocked_by_stock := false }
      (by
        intro p hp
        fin_cases hp
        · exact hp3.1
        · exact hp3.2.1
        · exact hp3.2.2) hin
    exact this
  obtain ⟨_, hfp, _, _, _, _⟩ := simulate_fields cfg s orders ncust
  rcases computeRevenue_total (simulateDemandAndSales cfg s orders ncust).1.prices
      (simulateDemandAndSales cfg s orders ncust).2.sold_products
      (by rw [hfp]; exact hsold) with ⟨r, hr⟩
  unfold settleStep
  rw [hr]
  exact ⟨_, rfl⟩

theorem settleStep_state_fields (cfg : Config) (s : State) (orders : List Order)
    (ncust : ℕ) (s1 : State) (res : SalesResult) (rev : ℚ)
    (h : settleStep cfg s orders ncust = some (s1, res, rev)) :
    s1.stock_on_hand = (simulateDemandAndSales cfg s orders ncust).1.stock_on_hand ∧
    s1.order_queue = (simulateDemandAndSales cfg s orders ncust).1.order_queue ∧
    s1.prices = s.prices ∧
    s1.cash = s.cash + rev ∧
    s1.inbound_deliveries = s.inbound_deliveries ∧
    s1.turn = s.turn := by
  obtain ⟨hfc, hfp, hfi, _, _, hft⟩ := simulate_fields cfg s orders ncust
  unfold settleStep at h
  cases hr : computeRevenue (simulateDemandAndSales cfg s orders ncust).1.prices
      (simulateDemandAndSales cfg s orders ncust).2.sold_products with
  | none => rw [hr] at h; cases h
  | some rv =>
    rw [hr] at h
    simp only [Option.some.injEq, Prod.mk.injEq] at h
    obtain ⟨hs1, _, hrev⟩ := h
    subst hrev
    rw [← hs1]
    exact ⟨rfl, rfl, hfp, by rw [hfc], hfi, hft⟩

theorem simulate_scan_stock (cfg : Config) (s : State) (orders : List Order)
    (ncust : ℕ) :
    (simulateDemandAndSales cfg s orders ncust).1.stock_on_hand =
      (scanOrders cfg.recipes
        (s.order_queue.filter (fun o => ¬ agedOut s.turn o) ++ orders)
        { remaining_customers := s.worker_capacities.customers_per_turn
          remaining_txistorra := s.worker_capacities.txistorra_strips_per_turn
          remaining_sidra := s.worker_capacities.sidra_bottles_per_turn
          stock := s.stock_on_hand
          sold_products := [(kPintxo, 0), (kBocadillo, 0), (kSidra, 0)]
          unserved_orders := []
          next_queue := []
          orders_served := []
          served_customers := 0
          blocked_by_customers_capacity := 0
          blocked_by_grill_capacity := 0
          blocked_by_sidra_capacity := 0
          blocked_by_stock := false }).stock := rfl

/-! ## Claim C2 -/

/-- C2 (amended): in every reachable state of a valid episode the cash
balance and every price stay non-negative, and every stock quantity
stays bounded below by minus the 1e-9 comparison tolerance (the
fulfillment check allows an order whose requirement exceeds the stock
by at most the tolerance, so the stock can dip to exactly -tol but no
further). -/
theorem c2_invariant (cfg : Config) (s : State) (hv : ValidConfig cfg)
    (h : Reach cfg s) :
    0 ≤ s.cash ∧ (∀ p ∈ s.stock_on_hand, -tol ≤ p.2) ∧ (∀ p ∈ s.prices, 0 ≤ p.2) := by
  obtain ⟨hc, hs, hp, _, _⟩ := goodState_of_reach cfg hv s h
  exact ⟨hc, hs, hp⟩

/-- Witness for C2: the amended invariant instantiated at the concrete
configuration cfgC2 and its initial state. -/
theorem c2_invariant_witness : 0 ≤ (initState cfgC2).cash :=
  (c2_invariant cfgC2 (initState cfgC2)
    (by
      unfold ValidConfig cfgC2
      norm_num)
    Reach.init).1

/-- Counterexample to C2 as stated: in the valid episode of cfgC2 the
state reached after the first settled step carries a negative txistorra
stock (-1e-9), because the order is served although its requirement
exceeds the zero stock by exactly the tolerance. -/
theorem c2_counterexample :
    ValidConfig cfgC2 ∧ Reach cfgC2 stateC2 ∧
      aget stateC2.stock_on_hand kTxistorra 0 < 0 := by
  have hsome : ∃ out, settleStep cfgC2 (initState cfgC2) [orderC2] 1 = some out := by
    refine settleStep_total cfgC2 (initState cfgC2) [orderC2] 1 ?_ ?_ ?_
    · refine ⟨?_, ?_, ?_⟩ <;> rfl
    · intro o ho
      cases ho
    · intro o ho
      rw [List.mem_singleton.mp ho]
      intro it hit
      rw [List.mem_singleton.mp hit]
      rfl
  rcases hsome with ⟨out, hout⟩
  have hstate : stateC2 = out.1 := by
    unfold stateC2 settledC2
    rw [hout]
    rfl
  have hout2 : settleStep cfgC2 (initState cfgC2) [orderC2] 1 =
      some (out.1, out.2.1, out.2.2) := hout
  have hreach : Reach cfgC2 stateC2 := by
    rw [hstate]
    refine Reach.demand_sales (initState cfgC2) [orderC2] 1 out.1 out.2.1 out.2.2
      Reach.init ?_ hout2
    intro o ho
    rw [List.mem_singleton.mp ho]
    exact ⟨rfl, by intro p hp; rw [List.mem_singleton.mp hp]; norm_num⟩
  refine ⟨?_, hreach, ?_⟩
  · unfold ValidConfig cfgC2
    norm_num
  · have hsf := settleStep_state_fields cfgC2 (initState cfgC2) [orderC2] 1
      out.1 out.2.1 out.2.2 hout2
    rw [hstate, hsf.1, simulate_scan_stock]
    norm_num +decide [scanOrders, cfgC2, initState, demandFix, orderC2, computeWorkerCapacities,
      countTasks, turnMinutes, agedOut, maxQueueWaitTurns, orderTxistorraNeed,
      orderSidraNeed, neededIngredients, canFulfill, aget, afind?, aset, ahas, tol,
      kPintxo, kBocadillo, kSidra, kTxistorra, kPan, kAtender, kFreir, kPreparar,
      kAbrir, kComprar, List.countP_cons, List.countP_nil]

/-! ## Claim C9 -/

/-- C9: in every reachable world state of an episode, no worker id
appears both in the worker assignments and among the workers on a
trip. -/
theorem c9_worker_disjoint (cfg : Config) (s : State) (h : Reach cfg s) :
    ∀ a ∈ s.worker_assignments, afind? s.workers_on_trip a.employee_id = none :=
  workerDisjoint_of_reach cfg s h

/-- Witness for C9: the disjointness instantiated at the initial state
of cfgC2, whose single assignment of worker 1 is not on a trip. -/
theorem c9_worker_disjoint_witness :
    afind? (initState cfgC2).workers_on_trip
      (({ employee_id := 1, task := kAtender } : EmployeeAssignment).employee_id) = none :=
  c9_worker_disjoint cfgC2 (initState cfgC2) Reach.init
    { employee_id := 1, task := kAtender } (by decide)

/-! ## Claim C3 -/

/-- C3 (amended): each of the six mutation-interface operations returns
a structured result with an explicit success flag, and a failed call
carries a reason string and leaves the world state unchanged; for
place_order this holds for every input whose requested ingredients all
appear in the configured cost map (for an unknown ingredient the cost
lookup raises instead of returning a structured result). -/
theorem c3_tool_contract (cfg : Config) (s : State) :
    ((get_status s).1.ok = true ∧ (get_status s).2 = s) ∧
    ((get_prices s).1.ok = true ∧ (get_prices s).2 = s) ∧
    (∀ m, (set_prices s m).1.ok = false →
      (set_prices s m).1.reason.isSome = true ∧ (set_prices s m).2 = s) ∧
    (∀ q w, (∀ p ∈ q, ahas cfg.costs p.1 = true) →
      ∃ r s1, place_order cfg s q w = some (r, s1) ∧
        (r.ok = false → r.reason.isSome = true ∧ s1 = s)) ∧
    (∀ l, (assign_workers cfg s l).1.ok = false →
      (assign_workers cfg s l).1.reason.isSome = true ∧ (assign_workers cfg s l).2 = s) ∧
    ((end_turn s).1.ok = true ∧ (end_turn s).2 = s) := by
  refine ⟨⟨rfl, rfl⟩, ⟨rfl, rfl⟩, ?_, ?_, ?_, ⟨rfl, rfl⟩⟩
  · intro m hm
    exact set_prices_fail_spec s m hm
  · intro q w hq
    rcases orderCost_total cfg.costs q hq with ⟨v, hv⟩
    unfold place_order
    rw [hv]
    cases v with
    | inl reason =>
      exact ⟨_, _, rfl, fun _ => ⟨rfl, rfl⟩⟩
    | inr cost =>
      cases hemp : w.isEmpty with
      | true =>
        simp only [if_true]
        exact ⟨_, _, rfl, fun _ => ⟨rfl, rfl⟩⟩
      | false =>
        simp only [Bool.false_eq_true, if_false]
        cases hval : validateWorkers cfg.num_workers s.workers_on_trip [] w with
        | some reason =>
          exact ⟨_, _, rfl, fun _ => ⟨rfl, rfl⟩⟩
        | none =>
          by_cases hwt : (w.length : ℚ) * cfg.worker_max_carry_weight + tol <
              totalWeight cfg.ingredient_weights q
          · rw [if_pos hwt]
            exact ⟨_, _, rfl, fun _ => ⟨rfl, rfl⟩⟩
          · rw [if_neg hwt]
            by_cases hcash : s.cash < cost
            · rw [if_pos hcash]
              exact ⟨_, _, rfl, fun _ => ⟨rfl, rfl⟩⟩
            · rw [if_neg hcash]
              exact ⟨_, _, rfl, fun hfalse => by cases hfalse⟩
  · intro l hl
    rcases assign_workers_cases cfg s l with ⟨_, h2, h3⟩ | ⟨h2, _, _⟩
    · exact ⟨h2, h3⟩
    · rw [hl] at h2; cases h2

/-- Witness for C3: the place_order clause of the contract applied to a
concrete in-cost-map call on cfgC2 produces a structured result. -/
theorem c3_tool_contract_witness :
    (place_order cfgC2 (initState cfgC2) [(kPan, 1)] [9]).isSome = true := by
  obtain ⟨r, s1, hr, _⟩ := (c3_tool_contract cfgC2 (initState cfgC2)).2.2.2.1
    [(kPan, 1)] [9] (by decide)
  rw [hr]
  rfl

/-- Counterexample to C3 as stated: place_order applied to a quantity
map naming an ingredient absent from the cost map escapes with a
KeyError (modelled as none) instead of returning a structured result. -/
theorem c3_counterexample :
    place_order cfgC2 (initState cfgC2) [(kDesconocido, 1)] [1] = none := by
  decide

/-! ## Claim C4 -/

/-- C4 (amended): a place_order call whose requested ingredients are
all in the cost map and whose total weight exceeds the workers' joint
carry capacity by more than the 1e-9 tolerance is rejected and returns
the state unchanged (so cash, stock and pending deliveries are exactly
as before). -/
theorem c4_weight_reject (cfg : Config) (s : State) (q : List (String × ℤ))
    (w : List ℤ) (hq : ∀ p ∈ q, ahas cfg.costs p.1 = true)
    (hw : (w.length : ℚ) * cfg.worker_max_carry_weight + tol <
      totalWeight cfg.ingredient_weights q) :
    ∃ r, place_order cfg s q w = some (r, s) ∧ r.ok = false := by
  rcases orderCost_total cfg.costs q hq with ⟨v, hv⟩
  unfold place_order
  rw [hv]
  cases v with
  | inl reason => exact ⟨_, rfl, rfl⟩
  | inr cost =>
    cases hemp : w.isEmpty with
    | true =>
      simp only [if_true]
      exact ⟨_, rfl, rfl⟩
    | false =>
      simp only [Bool.false_eq_true, if_false]
      cases hval : validateWorkers cfg.num_workers s.workers_on_trip [] w with
      | some reason => exact ⟨_, rfl, rfl⟩
      | none =>
        rw [if_pos hw]
        exact ⟨_, rfl, rfl⟩

/-- Witness for C4: a purchase two units of bread heavy against a one
unit carry capacity is rejected with the state unchanged. -/
theorem c4_weight_reject_witness :
    (place_order cfgC4 (initState cfgC4) qC4w [1]).map (fun x => x.1.ok) = some false ∧
    (place_order cfgC4 (initState cfgC4) qC4w [1]).map (fun x => x.2) =
      some (initState cfgC4) := by
  obtain ⟨r, hr, hok⟩ := c4_weight_reject cfgC4 (initState cfgC4) qC4w [1]
    (by decide)
    (by norm_num +decide [totalWeight, aget, afind?, cfgC4, qC4w, tol, kPan, kTxistorra, kSidra])
  rw [hr]
  simp [hok]

/-- Counterexample to C4 as stated: with a unit weight of 1 + 10^-10
and a carry capacity of 1, the purchase weight strictly exceeds the
capacity, yet the call is accepted (ok = true) because the excess is
within the 1e-9 comparison tolerance. -/
theorem c4_counterexample :
    ((([1] : List ℤ).length : ℚ)) * cfgC4.worker_max_carry_weight <
      totalWeight cfgC4.ingredient_weights qC4 ∧
    (place_order cfgC4 (initState cfgC4) qC4 [1]).map (fun x => x.1.ok) = some true := by
  constructor
  · norm_num +decide [totalWeight, aget, afind?, cfgC4, qC4, kPan, kTxistorra, kSidra]
  · norm_num +decide [place_order, orderCost, validateWorkers, totalWeight, acceptOrder,
      aget, afind?, aset, ahas, cfgC4, qC4, initState, tol, kPan, kTxistorra, kSidra,
      kPintxo, kBocadillo, setWorkerAssignments, normalizeAssignments, insertById,
      computeWorkerCapacities, countTasks, turnMinutes]

/-! ## Claim C1 -/

/-- C1 (amended): in the fulfillment scan, once the remaining
customer-slot budget is non-positive every remaining order of the batch
is requeued and recorded unserved and scanning stops (hard stop); an
order whose grill or drink requirement exceeds the remaining budget by
more than the 1e-9 tolerance is requeued and recorded unserved while
scanning continues with the next order (soft block). -/
theorem c1_scan_blocking (recipes : List (String × List (String × ℚ)))
    (o : Order) (rest : List Order) (st : ScanState) :
    (st.remaining_customers ≤ 0 →
      scanOrders recipes (o :: rest) st =
        { st with
          blocked_by_customers_capacity :=
            st.blocked_by_customers_capacity + (o :: rest).length
          unserved_orders := st.unserved_orders ++ (o :: rest).map (fun x => x.items)
          next_queue := st.next_queue ++ o :: rest }) ∧
    (0 < st.remaining_customers →
      st.remaining_txistorra + tol < orderTxistorraNeed recipes o.items →
      scanOrders recipes (o :: rest) st =
        scanOrders recipes rest
          { st with
            blocked_by_grill_capacity := st.blocked_by_grill_capacity + 1
            next_queue := st.next_queue ++ [o]
            unserved_orders := st.unserved_orders ++ [o.items] }) ∧
    (0 < st.remaining_customers →
      orderTxistorraNeed recipes o.items ≤ st.remaining_txistorra + tol →
      st.remaining_sidra + tol < orderSidraNeed recipes o.items →
      scanOrders recipes (o :: rest) st =
        scanOrders recipes rest
          { st with
            blocked_by_sidra_capacity := st.blocked_by_sidra_capacity + 1
            next_queue := st.next_queue ++ [o]
            unserved_orders := st.unserved_orders ++ [o.items] }) := by
  refine ⟨?_, ?_, ?_⟩
  · intro hc
    conv_lhs => rw [scanOrders]
    rw [if_pos hc]
  · intro hc htx
    conv_lhs => rw [scanOrders]
    rw [if_neg (not_le.mpr hc), if_pos htx]
  · intro hc htx hsd
    conv_lhs => rw [scanOrders]
    rw [if_neg (not_le.mpr hc), if_neg (not_lt.mpr htx), if_pos hsd]

/-- Witness for C1: the hard stop on a zero customer budget and the
grill soft block on a zero grill budget, at concrete scan states. -/
theorem c1_scan_blocking_witness :
    (scanOrders recipesC1 (orderC1 :: []) stC1c =
      { stC1c with
        blocked_by_customers_capacity :=
          stC1c.blocked_by_customers_capacity + (orderC1 :: []).length
        unserved_orders := stC1c.unserved_orders ++ (orderC1 :: []).map (fun x => x.items)
        next_queue := stC1c.next_queue ++ orderC1 :: [] }) ∧
    (scanOrders recipesC1 (orderC1 :: []) stC1b =
      scanOrders recipesC1 []
        { stC1b with
          blocked_by_grill_capacity := stC1b.blocked_by_grill_capacity + 1
          next_queue := stC1b.next_queue ++ [orderC1]
          unserved_orders := stC1b.unserved_orders ++ [orderC1.items] }) := by
  constructor
  · exact (c1_scan_blocking recipesC1 orderC1 [] stC1c).1 (by norm_num [stC1c, stC1])
  · exact (c1_scan_blocking recipesC1 orderC1 [] stC1b).2.1
      (by norm_num [stC1b, stC1])
      (by norm_num +decide [stC1b, stC1, recipesC1, orderC1, orderTxistorraNeed,
        aget, afind?, tol, kTxistorra, kPintxo])

/-- Counterexample to C1 as stated: an order whose grill requirement
strictly exceeds the remaining grill budget (by 10^-10, within the
tolerance) is nevertheless served rather than requeued. -/
theorem c1_counterexample :
    stC1.remaining_txistorra < orderTxistorraNeed recipesC1 orderC1.items ∧
    (scanOrders recipesC1 [orderC1] stC1).next_queue = [] ∧
    (scanOrders recipesC1 [orderC1] stC1).orders_served = [orderC1.items] := by
  refine ⟨?_, ?_, ?_⟩ <;>
    norm_num +decide [scanOrders, stC1, recipesC1, orderC1, orderTxistorraNeed,
      orderSidraNeed, neededIngredients, canFulfill, aget, afind?, aset, ahas, tol,
      kTxistorra, kPintxo, kSidra]

/-! ## Claim C6 -/

theorem scanOrders_queue_subset (recipes : List (String × List (String × ℚ))) :
    ∀ (orders : List Order) (st : ScanState) (o : Order),
    o ∈ (scanOrders recipes orders st).next_queue →
    o ∈ st.next_queue ∨ o ∈ orders := by
  intro orders
  induction orders with
  | nil =>
    intro st o ho
    left
    simpa [scanOrders] using ho
  | cons a rest ih =>
    intro st o ho
    unfold scanOrders at ho
    by_cases hc : st.remaining_customers ≤ 0
    · rw [if_pos hc] at ho
      simp only at ho
      rcases List.mem_append.mp ho with h1 | h1
      · left; exact h1
      · right; exact h1
    · rw [if_neg hc] at ho
      by_cases htx : st.remaining_txistorra + tol < orderTxistorraNeed recipes a.items
      · rw [if_pos htx] at ho
        rcases ih _ o ho with h1 | h1
        · rcases List.mem_append.mp h1 with h2 | h2
          · left; exact h2
          · right; simp [List.mem_singleton.mp h2]
        · right; exact List.mem_cons_of_mem _ h1
      · rw [if_neg htx] at ho
        by_cases hsd : st.remaining_sidra + tol < orderSidraNeed recipes a.items
        · rw [if_pos hsd] at ho
          rcases ih _ o ho with h1 | h1
          · rcases List.mem_append.mp h1 with h2 | h2
            · left; exact h2
            · right; simp [List.mem_singleton.mp h2]
          · right; exact List.mem_cons_of_mem _ h1
        · rw [if_neg hsd] at ho
          by_cases hcf : canFulfill st.stock (neededIngredients recipes a.items) = true
          · rw [if_neg (by simpa using hcf)] at ho
            rcases ih _ o ho with h1 | h1
            · left; exact h1
            · right; exact List.mem_cons_of_mem _ h1
          · rw [if_pos (by simpa using hcf)] at ho
            rcases ih _ o ho with h1 | h1
            · rcases List.mem_append.mp h1 with h2 | h2
              · left; exact h2
              · right; simp [List.mem_singleton.mp h2]
            · right; exact List.mem_cons_of_mem _ h1

theorem simulate_scan_queue (cfg : Config) (s : State) (orders : List Order)
    (ncust : ℕ) :
    (simulateDemandAndSales cfg s orders ncust).1.order_queue =
      (scanOrders cfg.recipes
        (s.order_queue.filter (fun o => ¬ agedOut s.turn o) ++ orders)
        { remaining_customers := s.worker_capacities.customers_per_turn
          remaining_txistorra := s.worker_capacities.txistorra_strips_per_turn
          remaining_sidra := s.worker_capacities.sidra_bottles_per_turn
          stock := s.stock_on_hand
          sold_products := [(kPintxo, 0), (kBocadillo, 0), (kSidra, 0)]
          unserved_orders := []
          next_queue := []
          orders_served := []
          served_customers := 0
          blocked_by_customers_capacity := 0
          blocked_by_grill_capacity := 0
          blocked_by_sidra_capacity := 0
          blocked_by_stock := false }).next_queue := rfl

/-- C6: before any budget accounting, every queued order aged two or
more turns is dropped and counted, independently of capacities and
stock; an aged order neither enters the scanned batch nor survives
into the next queue. -/
theorem c6_age_eviction (cfg : Config) (s : State) (new_orders : List Order)
    (ncust : ℕ) (hnew : ∀ o ∈ new_orders, o.arrival_turn = s.turn) :
    ((simulateDemandAndSales cfg s new_orders ncust).2.stats.dropped_from_queue =
      (s.order_queue.filter (agedOut s.turn)).length) ∧
    ((simulateDemandAndSales cfg s new_orders ncust).2.stats.queue_start =
      (s.order_queue.filter (fun o => ¬ agedOut s.turn o)).length) ∧
    (∀ o, agedOut s.turn o = true →
      o ∉ s.order_queue.filter (fun o2 => ¬ agedOut s.turn o2) ++ new_orders) ∧
    (∀ o, agedOut s.turn o = true →
      o ∉ (simulateDemandAndSales cfg s new_orders ncust).1.order_queue) ∧
    (∀ caps stock2,
      (simulateDemandAndSales cfg
        { s with worker_capacities := caps, stock_on_hand := stock2 }
        new_orders ncust).2.stats.dropped_from_queue =
      (s.order_queue.filter (agedOut s.turn)).length) := by
  have hnotin : ∀ o, agedOut s.turn o = true →
      o ∉ s.order_queue.filter (fun o2 => ¬ agedOut s.turn o2) ++ new_orders := by
    intro o ho hmem
    rcases List.mem_append.mp hmem with h1 | h1
    · have h2 := (List.mem_filter.mp h1).2
      simp [ho] at h2
    · have harr := hnew o h1
      unfold agedOut maxQueueWaitTurns at ho
      rw [harr] at ho
      have h3 := of_decide_eq_true ho
      omega
  refine ⟨rfl, rfl, hnotin, ?_, ?_⟩
  · intro o ho hmem
    rw [simulate_scan_queue] at hmem
    rcases scanOrders_queue_subset cfg.recipes _ _ o hmem with h1 | h1
    · cases h1
    · exact hnotin o ho h1
  · intro caps stock2
    rfl

/-- Witness for C6: the eviction equalities at the concrete turn-0
state of cfgC2 with one fresh order. -/
theorem c6_age_eviction_witness :
    (simulateDemandAndSales cfgC2 (initState cfgC2) [orderC2] 1).2.stats.dropped_from_queue =
      ((initState cfgC2).order_queue.filter (agedOut (initState cfgC2).turn)).length :=
  (c6_age_eviction cfgC2 (initState cfgC2) [orderC2] 1
    (by
      intro o ho
      rw [List.mem_singleton.mp ho]
      rfl)).1

/-! ## Claim C5 -/

/-- C5: whenever place_order is accepted, cash is reduced by the total
cost of the quantities, a delivery carrying exactly those quantities
with arrival step current turn + lead time is appended to the pending
deliveries, every listed worker disappears from the task assignments,
and every listed worker is marked on trip with lead-time steps
remaining. -/
theorem c5_place_order_accepted (cfg : Config) (s : State) (q : List (String × ℤ))
    (w : List ℤ) (r : ToolResult) (s1 : State)
    (h : place_order cfg s q w = some (r, s1)) (hok : r.ok = true) :
    s1.cash = s.cash - totalCost cfg.costs q ∧
    s1.inbound_deliveries = s.inbound_deliveries ++
      [{ arrival_turn := s.turn + cfg.lead_time, quantities := q }] ∧
    (∀ a ∈ s1.worker_assignments, a.employee_id ∉ w) ∧
    (∀ x ∈ w, afind? s1.workers_on_trip x = some (cfg.lead_time : ℤ)) := by
  rcases place_order_cases cfg s q w r s1 h with ⟨hf, _, _⟩ |
    ⟨_, cost, hoc, _, _, _, _, hs⟩
  · rw [hf] at hok; cases hok
  · subst hs
    obtain ⟨hwa, hwt, hc, hi, _, _, _, _⟩ := acceptOrder_fields cfg s q w cost
    obtain ⟨hcost, _⟩ := orderCost_inr_spec _ _ _ hoc
    refine ⟨?_, hi, ?_, ?_⟩
    · rw [hc, hcost]
    · intro a ha
      rw [hwa] at ha
      have hfil := List.mem_filter.mp (mem_normalize.mp ha)
      simpa using hfil.2
    · intro x hx
      rw [hwt]
      exact afind?_foldl_aset_mem w _ hx

/-- Witness for C5: the acceptance effects at the concrete accepted
zero-cost purchase of cfgC4, checked on cash and worker 1's trip. -/
theorem c5_place_order_accepted_witness :
    placedC5.2.cash = (initState cfgC4).cash - totalCost cfgC4.costs qC4 ∧
    afind? placedC5.2.workers_on_trip 1 = some ((cfgC4.lead_time : ℤ)) := by
  have hsome : place_order cfgC4 (initState cfgC4) qC4 [1] =
      some (placedC5.1, placedC5.2) := by
    norm_num +decide [place_order, orderCost, validateWorkers, totalWeight, acceptOrder,
      aget, afind?, aset, ahas, cfgC4, qC4, placedC5, initState, tol, kPan, kTxistorra,
      kSidra, kPintxo, kBocadillo, setWorkerAssignments, normalizeAssignments, insertById,
      computeWorkerCapacities, countTasks, turnMinutes]
  have hok : placedC5.1.ok = true := by
    norm_num +decide [place_order, orderCost, validateWorkers, totalWeight, acceptOrder,
      aget, afind?, aset, ahas, cfgC4, qC4, placedC5, initState, tol, kPan, kTxistorra,
      kSidra, kPintxo, kBocadillo, setWorkerAssignments, normalizeAssignments, insertById,
      computeWorkerCapacities, countTasks, turnMinutes]
  obtain ⟨h1, _, _, h4⟩ := c5_place_order_accepted cfgC4 (initState cfgC4) qC4 [1]
    placedC5.1 placedC5.2 hsome hok
  exact ⟨h1, h4 1 (by simp)⟩

/-! ## Claim C7 -/

/-- C7: given that the decision phase's tool calls complete without an
exception, the step fails with the contract-violation error exactly
when the decision-maker's returned plan does not end with end_turn, and
when the plan does end with end_turn (and the settlement's price
lookups succeed) the step proceeds through demand, fulfillment and
settlement and returns an ok outcome. -/
theorem c7_end_turn_contract {σ : Type} (cfg : Config)
    (demandFn : σ → List (String × ℚ) → ℕ → σ × List Order × ℕ)
    (r : σ) (s : State) (decisions : List ToolCall)
    (trc : List (ToolCall × ToolResult)) (s1 : State)
    (hcalls : applyCalls cfg (receiveDeliveries (updateWorkerTrips s)) decisions =
      some (trc, s1)) :
    (endsWithEndTurn decisions = false →
      runStepWith cfg demandFn r s decisions =
        Except.error ("El plan de acciones debe finalizar con end_turn")) ∧
    (endsWithEndTurn decisions = true →
      ∀ (s2 : State) (res : SalesResult) (rev : ℚ),
      settleStep cfg s1 (demandFn r s1.prices s1.turn).2.1
          (demandFn r s1.prices s1.turn).2.2 = some (s2, res, rev) →
      runStepWith cfg demandFn r s decisions =
        Except.ok ((demandFn r s1.prices s1.turn).1, s2,
          { turn := (receiveDeliveries (updateWorkerTrips s)).turn
            time := formatTime (receiveDeliveries (updateWorkerTrips s)).turn
            state_before := mkSnapshot (receiveDeliveries (updateWorkerTrips s))
            queue_start := res.stats.queue_start
            agent_actions := trc
            orders_served := res.orders_served
            revenue := rev
            sold_products := res.sold_products
            state_after := mkSnapshot s2
            queue_end := res.stats.queue_end })) := by
  constructor
  · intro hend
    unfold runStepWith
    rw [hcalls, hend]
    simp
  · intro hend s2 res rev hsettle
    unfold runStepWith
    rw [hcalls, hend]
    simp [hsettle]

/-- Witness for C7: a decision plan not ending with end_turn makes the
step fail with the contract-violation error on a concrete state. -/
theorem c7_end_turn_contract_witness :
    runStepWith cfgC4 noDemand 0 (initState cfgC4) [ToolCall.get_status] =
      Except.error ("El plan de acciones debe finalizar con end_turn") :=
  (c7_end_turn_contract cfgC4 noDemand 0 (initState cfgC4) [ToolCall.get_status]
    [(ToolCall.get_status, { ok := true })]
    (receiveDeliveries (updateWorkerTrips (initState cfgC4))) rfl).1 rfl

/-! ## Claim C8 -/

theorem profileTicket_eq (prices : List (String × ℚ)) :
    ∀ (items : List (String × ℤ)),
    (∀ it ∈ items, (afind? prices it.1).isSome = true) →
    profileTicket prices items =
      some ((items.map (fun it => (it.2 : ℚ) * aget prices it.1 0)).sum) := by
  intro items
  induction items with
  | nil => intro; simp [profileTicket]
  | cons it rest ih =>
    intro h
    have h1 := h it (by simp)
    unfold profileTicket
    cases hf : afind? prices it.1 with
    | none => rw [hf] at h1; simp at h1
    | some pr =>
      rw [ih (fun x hx => h x (by simp [hx]))]
      simp [aget, hf]

theorem expectedTicketList_eq (prices : List (String × ℚ))
    (profiles : List (String × OrderProfile)) :
    ∀ (l : List (String × ℚ)),
    (∀ pr ∈ l, ∃ prof, afind? profiles pr.1 = some prof ∧
      ∀ it ∈ prof.items, (afind? prices it.1).isSome = true) →
    expectedTicketList prices profiles l =
      some ((l.map (fun pr => pr.2 *
        ((aget profiles pr.1 { name := "", items := [] }).items.map
          (fun it => (it.2 : ℚ) * aget prices it.1 0)).sum)).sum) := by
  intro l
  induction l with
  | nil => intro; simp [expectedTicketList]
  | cons pr rest ih =>
    intro h
    obtain ⟨prof, hprof, hits⟩ := h pr (by simp)
    unfold expectedTicketList
    rw [hprof]
    dsimp only
    rw [profileTicket_eq prices prof.items hits,
      ih (fun x hx => h x (by simp [hx]))]
    simp [aget, hprof]

/-- C8 (amended): the expected ticket value of the demand sampler is
the sum over the active segment's profile probabilities, used raw (not
normalized and with no uniform fallback at zero total weight), of the
probability times the profile's sum of unit price times quantity; only
when the probability table is empty is the simple mean of the three
product prices used instead. -/
theorem c8_expected_ticket (prices : List (String × ℚ)) (params : DemandParams)
    (turnIdx : ℕ)
    (h0 : findOrderMixSegment params turnIdx ≠ [])
    (hl : ∀ pr ∈ findOrderMixSegment params turnIdx,
      ∃ prof, afind? params.order_profiles pr.1 = some prof ∧
        ∀ it ∈ prof.items, (afind? prices it.1).isSome = true) :
    computeExpectedTicket prices params turnIdx =
      some (((findOrderMixSegment params turnIdx).map (fun pr => pr.2 *
        ((aget params.order_profiles pr.1 { name := "", items := [] }).items.map
          (fun it => (it.2 : ℚ) * aget prices it.1 0)).sum)).sum) := by
  unfold computeExpectedTicket
  rw [if_neg (by simpa [List.isEmpty_iff] using h0)]
  exact expectedTicketList_eq prices params.order_profiles _ hl

/-- Witness for C8: the raw-probability formula evaluated on the
fixture demand parameters at turn 0. -/
theorem c8_expected_ticket_witness :
    computeExpectedTicket pricesC8 demandFix 0 =
      some (((findOrderMixSegment demandFix 0).map (fun pr => pr.2 *
        ((aget demandFix.order_profiles pr.1 { name := "", items := [] }).items.map
          (fun it => (it.2 : ℚ) * aget pricesC8 it.1 0)).sum)).sum) := by
  refine c8_expected_ticket pricesC8 demandFix 0 (by decide) ?_
  intro pr hpr
  have hpr2 : pr = ("solo_pintxo", (1 : ℚ)) := by
    have : findOrderMixSegment demandFix 0 = [("solo_pintxo", (1 : ℚ))] := by decide
    rw [this] at hpr
    exact List.mem_singleton.mp hpr
  subst hpr2
  exact ⟨{ name := "solo_pintxo", items := [(kPintxo, 1)] }, by decide, by decide⟩

/-- Counterexample to C8 as stated: with a single profile of configured
weight zero the implementation returns an expected ticket of zero,
while the specified normalization with uniform fallback at zero total
weight yields the profile's full ticket value. -/
theorem c8_counterexample :
    computeExpectedTicket pricesC8 paramsC8 0 ≠ specExpectedTicket pricesC8 paramsC8 0 := by
  norm_num +decide [computeExpectedTicket, specExpectedTicket, findOrderMixSegment,
    expectedTicketList, profileTicket, paramsC8, pricesC8, aget, afind?, kPintxo,
    kBocadillo, kSidra]

/-! ## Claim C10 -/

/-- C10: an episode is a deterministic function of the configuration,
the seeded generator state and the decision-maker's responses: two runs
with equal configurations, equal initial generator states and
pointwise-equal decision-makers produce identical trace-record
sequences and final states. -/
theorem c10_determinism {σ : Type} (cfg1 cfg2 : Config)
    (demandFn : σ → List (String × ℚ) → ℕ → σ × List Order × ℕ)
    (agent1 agent2 : Observation → List ToolCall) (r1 r2 : σ)
    (hcfg : cfg1 = cfg2) (hagent : ∀ obs, agent1 obs = agent2 obs) (hr : r1 = r2) :
    runEpisode cfg1 demandFn agent1 r1 = runEpisode cfg2 demandFn agent2 r2 := by
  subst hcfg
  subst hr
  rw [funext hagent]

/-- Witness for C10: two syntactically distinct but pointwise-equal
decision-makers yield identical episodes on cfgC4. -/
theorem c10_determinism_witness :
    runEpisode cfgC4 noDemand agentW1 0 = runEpisode cfgC4 noDemand agentW2 0 :=
  c10_determinism cfgC4 cfgC4 noDemand agentW1 agentW2 0 0 rfl (fun _ => rfl) rfl

end Santoto
